import Mathlib

/-!
Verification of the go-cowsql client protocol engine.

This file gives a shallow embedding, in Lean 4, of the parts of the
go-cowsql repository that the checked claims are about:

* the driver-side error classification (driver/driver.go, driverError);
* the Protocol call engine (internal/protocol/protocol.go): Call, More,
  Interrupt, the receive path with its buffer-growth loop, the sticky
  network-error flag and the per-call stream deadline;
* the leader-discovery connector (internal/protocol/request.go):
  connectAttemptAll with its role sorting and single-hop redirect logic,
  and the retry loop built from the Rican7/retry v0.3 combinators that
  Connect uses;
* the driver Exec/Query parameter-count gating (driver/driver.go) and the
  two SQL request encodings (internal/protocol/request.go);
* the YAML node store (client/store.go).

Machine integers are modelled as Nat (all the quantities involved are
unsigned and no overflow is reachable in the modelled paths), fallible
operations return Except or Option, and the network connection is
modelled as a finite script of read/write outcomes together with an
explicit trace of the operations performed on the connection, so that
claims about the absence of I/O or of deadline manipulation are
statable.  File message.go of the internal/protocol package is not part
of the sources; the definitions that stand in for it are marked
"Modelled from the spec" and follow the specification text.
-/

namespace Cowsql

/-! ## Driver error codes (driver/driver.go, const block) -/

/-- Error code: SQLITE_BUSY. -/
def ErrBusy : Nat := 5

/-- Error code: busy during recovery. -/
def ErrBusyRecovery : Nat := 5 ||| (1 <<< 8)

/-- Error code: busy during snapshot. -/
def ErrBusySnapshot : Nat := 5 ||| (2 <<< 8)

/-- Error code: generic I/O error. -/
def errIoErr : Nat := 10

/-- Error code: this node is not the leader. -/
def errIoErrNotLeader : Nat := errIoErr ||| (40 <<< 8)

/-- Error code: leadership was lost. -/
def errIoErrLeadershipLost : Nat := errIoErr ||| (41 <<< 8)

/-- Error code: entity not found. -/
def errNotFound : Nat := 12

/-- Legacy pre-3.32.1+replication4 code for not-leader. -/
def errIoErrNotLeaderLegacy : Nat := errIoErr ||| (32 <<< 8)

/-- Legacy pre-3.32.1+replication4 code for leadership-lost. -/
def errIoErrLeadershipLostLegacy : Nat := errIoErr ||| (33 <<< 8)

/-! ## Go-side error values reaching driverError

driverError inspects the error chain with errors.As / errors.Is, in this
order: syscall.Errno, *net.OpError, protocol.ErrRequest, io.EOF.  We
model the possible root errors as one inductive; the ErrRequest shape
(numeric code plus description) is visible from its use sites in
driver.go. -/

/-- A Go error value as classified by driverError. -/
inductive GoError where
  /-- A syscall.Errno with the given value. -/
  | errno (n : Nat)
  /-- A *net.OpError; the flag records whether it reports a timeout. -/
  | netOp (timeout : Bool)
  /-- A protocol.ErrRequest failure response, with server code and description. -/
  | request (code : Nat) (desc : String)
  /-- io.EOF. -/
  | eof
  /-- Any other error. -/
  | other (msg : String)
  deriving DecidableEq, Repr

/-- The result of driverError: either the connection-dead sentinel
driver.ErrBadConn, a typed application error (driver.Error with code and
message), or the original error passed through. -/
inductive DriverVerdict where
  | badConn
  | appError (code : Nat) (message : String)
  | passthrough (e : GoError)
  deriving DecidableEq, Repr

/-- driverError (driver/driver.go): classifies an error coming back from
a protocol call.  Direct translation of the errors.As / switch chain:
syscall.Errno and *net.OpError mean the network connection was lost;
for an ErrRequest the not-leader, leadership-lost (current and legacy)
and not-found codes, as well as a zero code, are mapped to
driver.ErrBadConn, and every other code becomes a typed application
error; io.EOF is also mapped to driver.ErrBadConn. -/
def driverError : GoError → DriverVerdict
  | .errno n =>
      if n ≠ 0 then .badConn else .passthrough (.errno n)
  | .netOp _ => .badConn
  | .request code desc =>
      if code = errIoErrNotLeaderLegacy then .badConn
      else if code = errIoErrLeadershipLostLegacy then .badConn
      else if code = errIoErrNotLeader then .badConn
      else if code = errIoErrLeadershipLost then .badConn
      else if code = errNotFound then .badConn
      else if code = 0 then .badConn
      else .appError code desc
  | .eof => .badConn
  | .other msg => .passthrough (.other msg)

/-! ## Protocol constants (internal/protocol/constants.go part of protocol.go sources) -/

/-- VersionOne is version 1 of the server protocol. -/
def VersionOne : Nat := 1

/-- VersionLegacy is the pre 1.0 cowsql server protocol version. -/
def VersionLegacy : Nat := 0x86104dd760433fe5

/-- Request type code for the Leader request. -/
def RequestLeader : Nat := 0

/-- Request type code for the Client registration request. -/
def RequestClient : Nat := 1

/-- Request type code for ExecSQL. -/
def RequestExecSQL : Nat := 8

/-- Request type code for QuerySQL. -/
def RequestQuerySQL : Nat := 9

/-- Request type code for Interrupt. -/
def RequestInterrupt : Nat := 10

/-- Response type code for a Failure response. -/
def ResponseFailure : Nat := 0

/-- Response type code for an Empty response. -/
def ResponseEmpty : Nat := 8

/-! ## Message buffers

File message.go of the internal/protocol package is absent from the
sources; only its tests, its callers (protocol.go, request.go,
driver.go) and the specification describe it.  The definitions in this
section are therefore modelled from the spec (sections 3 and 4.1):
a Message holds the parsed header fields (word count, type, schema,
16-bit flags) and a body buffer that is written append-only at a write
offset; put operations advance the offset, composite puts pad with zero
bytes up to the 8-byte word boundary; putHeader finalizes the word
count as ceil(offset / 8).  The internal-test file confirms the exact
offsets (putString of "hello" ends at offset 8, putBlob of 5 bytes at
offset 16, and so on). -/

/-- The protocol word size in bytes. -/
def messageWordSize : Nat := 8

/-- The size in bytes of a message header. -/
def messageHeaderSize : Nat := 8

/-- A message body: a byte buffer and the current write offset.
Bytes are modelled as Nat values below 256. -/
structure MBody where
  bytes : List Nat
  offset : Nat
  deriving DecidableEq, Repr

/-- A wire message: parsed header fields plus the body buffer. -/
structure Message where
  words : Nat
  mtype : Nat
  schema : Nat
  extra : Nat
  body : MBody
  deriving DecidableEq, Repr

/-- Modelled from the spec: write a chunk of bytes at the current body
offset, growing the buffer when the chunk extends past its end, and
advance the offset by the chunk length. -/
def MBody.put (b : MBody) (chunk : List Nat) : MBody :=
  { bytes := b.bytes.take b.offset ++ chunk ++ b.bytes.drop (b.offset + chunk.length)
    offset := b.offset + chunk.length }

/-- Modelled from the spec: Message.Init allocates a zeroed body buffer
with the given capacity. -/
def Message.init (capacity : Nat) : Message :=
  { words := 0, mtype := 0, schema := 0, extra := 0
    body := { bytes := List.replicate capacity 0, offset := 0 } }

/-- Modelled from the spec: reset rewinds the write offset to zero
before encoding a new request; the buffer itself is kept. -/
def Message.reset (m : Message) : Message :=
  { m with body := { m.body with offset := 0 } }

/-- The bytes of the encoded body, i.e. body.Bytes up to the write
offset: exactly what Protocol.sendBody puts on the wire. -/
def Message.payload (m : Message) : List Nat :=
  m.body.bytes.take m.body.offset

/-- Round n up to the next multiple of the word size. -/
def alignWord (n : Nat) : Nat :=
  (n + messageWordSize - 1) / messageWordSize * messageWordSize

/-- Little-endian bytes of an 8-bit value. -/
def uint8Bytes (n : Nat) : List Nat := [n % 256]

/-- Little-endian bytes of a 16-bit value. -/
def uint16Bytes (n : Nat) : List Nat := [n % 256, n / 256 % 256]

/-- Little-endian bytes of a 32-bit value. -/
def uint32Bytes (n : Nat) : List Nat :=
  [n % 256, n / 256 % 256, n / 65536 % 256, n / 16777216 % 256]

/-- Little-endian bytes of a 64-bit value. -/
def uint64Bytes (n : Nat) : List Nat :=
  (List.range 8).map (fun i => n / 256 ^ i % 256)

/-- Interpret a little-endian byte list as a Nat. -/
def leNat (bs : List Nat) : Nat :=
  bs.foldr (fun b acc => b % 256 + 256 * acc) 0

/-- The UTF-8 bytes of a string. -/
def stringBytes (s : String) : List Nat :=
  s.toUTF8.toList.map (fun b => b.toNat)

/-- Modelled from the spec: the body chunk written for a string: its
UTF-8 bytes, exactly one NUL terminator, then zero padding up to the
next word boundary. -/
def stringChunk (s : String) : List Nat :=
  let raw := stringBytes s ++ [0]
  raw ++ List.replicate (alignWord raw.length - raw.length) 0

/-- Modelled from the spec: putUint8 writes one byte. -/
def Message.putUint8 (m : Message) (v : Nat) : Message :=
  { m with body := m.body.put (uint8Bytes v) }

/-- Modelled from the spec: putUint32 writes four little-endian bytes. -/
def Message.putUint32 (m : Message) (v : Nat) : Message :=
  { m with body := m.body.put (uint32Bytes v) }

/-- Modelled from the spec: putUint64 writes eight little-endian bytes. -/
def Message.putUint64 (m : Message) (v : Nat) : Message :=
  { m with body := m.body.put (uint64Bytes v) }

/-- Modelled from the spec: putString writes the padded string chunk. -/
def Message.putString (m : Message) (s : String) : Message :=
  { m with body := m.body.put (stringChunk s) }

/-- Modelled from the spec: putBlob writes a 64-bit length prefix, the
raw bytes, and zero padding to the next word boundary. -/
def Message.putBlob (m : Message) (data : List Nat) : Message :=
  let withLen := m.putUint64 data.length
  { withLen with
    body := withLen.body.put
      (data ++ List.replicate (alignWord data.length - data.length) 0) }

/-- A driver parameter value, as bound to a SQL placeholder.  Floats
carry their raw IEEE-754 bits (the codec only moves them as an 8-byte
word). -/
inductive Value where
  | int (v : Int)
  | float (bits : Nat)
  | text (s : String)
  | blob (data : List Nat)
  | null
  | bool (b : Bool)
  | unixTime (secs : Int)
  | iso8601 (s : String)
  deriving DecidableEq, Repr

/-- The wire type tag of a value (constants from protocol.go). -/
def Value.tag : Value → Nat
  | .int _ => 1
  | .float _ => 2
  | .text _ => 3
  | .blob _ => 4
  | .null => 5
  | .unixTime _ => 9
  | .iso8601 _ => 10
  | .bool _ => 11

/-- The 64-bit twos-complement representation of an integer. -/
def int64Nat (v : Int) : Nat := (v % (18446744073709551616 : Int)).toNat

/-- Modelled from the spec: the encoded payload of one value: integers,
floats, booleans and unix timestamps as one 8-byte word (null likewise
as a zero word), strings and blobs as their padded chunks. -/
def Message.putValue (m : Message) : Value → Message
  | .int v => m.putUint64 (int64Nat v)
  | .float bits => m.putUint64 bits
  | .text s => m.putString s
  | .blob d => m.putBlob d
  | .null => m.putUint64 0
  | .bool b => m.putUint64 (if b then 1 else 0)
  | .unixTime t => m.putUint64 (int64Nat t)
  | .iso8601 s => m.putString s

/-- Modelled from the spec: putNamedValues, the 8-bit-count variant:
one count byte, one tag byte per parameter, the whole block zero-padded
to the word boundary, then each value payload in order. -/
def Message.putNamedValues (m : Message) (values : List Value) : Message :=
  let head := uint8Bytes values.length ++ values.map Value.tag
  let chunk := head ++ List.replicate (alignWord head.length - head.length) 0
  let withHead := { m with body := m.body.put chunk }
  values.foldl Message.putValue withHead

/-- Modelled from the spec: putNamedValues32, the 32-bit-count variant:
the count as four little-endian bytes padded to a full word, then the
tag bytes zero-padded to the word boundary as a block, then each value
payload in order. -/
def Message.putNamedValues32 (m : Message) (values : List Value) : Message :=
  let countWord := uint32Bytes values.length ++ List.replicate 4 0
  let tags := values.map Value.tag
  let chunk := countWord ++ tags ++ List.replicate (alignWord tags.length - tags.length) 0
  let withHead := { m with body := m.body.put chunk }
  values.foldl Message.putValue withHead

/-- Modelled from the spec: putHeader finalizes the message: it pads
the body to a whole number of words, records words = ceil(offset / 8)
and the request type and schema version, and must be the last call
before a send.  Request flags are zero. -/
def Message.putHeader (m : Message) (mtype schema : Nat) : Message :=
  let padded := m.body.put (List.replicate (alignWord m.body.offset - m.body.offset) 0)
  { words := padded.offset / messageWordSize
    mtype := mtype, schema := schema, extra := 0, body := padded }

/-! ## Request encoders (internal/protocol/request.go) -/

/-- EncodeLeader encodes a Leader request. -/
def EncodeLeader (request : Message) : Message :=
  ((request.reset.putUint64 0)).putHeader RequestLeader 0

/-- EncodeClient encodes a Client request. -/
def EncodeClient (request : Message) (id : Nat) : Message :=
  ((request.reset.putUint64 id)).putHeader RequestClient 0

/-- EncodeExecSQLV0 encodes a ExecSQL request with the 8-bit parameter
count. -/
def EncodeExecSQLV0 (request : Message) (db : Nat) (sql : String) (values : List Value) : Message :=
  ((((request.reset.putUint64 db)).putString sql).putNamedValues values).putHeader RequestExecSQL 0

/-- EncodeExecSQLV1 encodes a ExecSQL request with the 32-bit parameter
count. -/
def EncodeExecSQLV1 (request : Message) (db : Nat) (sql : String) (values : List Value) : Message :=
  ((((request.reset.putUint64 db)).putString sql).putNamedValues32 values).putHeader RequestExecSQL 1

/-- EncodeQuerySQLV0 encodes a QuerySQL request with the 8-bit parameter
count. -/
def EncodeQuerySQLV0 (request : Message) (db : Nat) (sql : String) (values : List Value) : Message :=
  ((((request.reset.putUint64 db)).putString sql).putNamedValues values).putHeader RequestQuerySQL 0

/-- EncodeQuerySQLV1 encodes a QuerySQL request with the 32-bit
parameter count. -/
def EncodeQuerySQLV1 (request : Message) (db : Nat) (sql : String) (values : List Value) : Message :=
  ((((request.reset.putUint64 db)).putString sql).putNamedValues32 values).putHeader RequestQuerySQL 1

/-- EncodeInterrupt encodes a Interrupt request. -/
def EncodeInterrupt (request : Message) (db : Nat) : Message :=
  ((request.reset.putUint64 db)).putHeader RequestInterrupt 0

/-! ## Driver-side Exec/Query parameter-count gating (driver/driver.go)

Conn.ExecContext and Conn.QueryContext choose the request encoding from
the argument count: more than math.MaxUint32 arguments is rejected with
a too-many-parameters error before protocol.Call is reached, more than
math.MaxUint8 arguments selects the V1 (32-bit count) encoding, and
anything else the V0 (8-bit count) encoding.  The second component of
the result counts how many protocol.Call invocations the function
performs before returning. -/

/-- math.MaxUint32. -/
def maxUint32 : Nat := 4294967295

/-- math.MaxUint8. -/
def maxUint8 : Nat := 255

/-- The encoding step of Conn.ExecContext: either a too-many-parameters
error (and zero calls issued on the protocol) or the encoded request
that is then passed to exactly one protocol.Call. -/
def connExecContext (request : Message) (id : Nat) (query : String) (args : List Value) :
    Except String Message × Nat :=
  if args.length > maxUint32 then
    (.error "too many parameters", 0)
  else if args.length > maxUint8 then
    (.ok (EncodeExecSQLV1 request id query args), 1)
  else
    (.ok (EncodeExecSQLV0 request id query args), 1)

/-- The encoding step of Conn.QueryContext, mirroring connExecContext
with the QuerySQL encoders. -/
def connQueryContext (request : Message) (id : Nat) (query : String) (args : List Value) :
    Except String Message × Nat :=
  if args.length > maxUint32 then
    (.error "too many parameters", 0)
  else if args.length > maxUint8 then
    (.ok (EncodeQuerySQLV1 request id query args), 1)
  else
    (.ok (EncodeQuerySQLV0 request id query args), 1)

/-! ## The network connection

The underlying net.Conn is modelled as a finite script of outcomes,
consumed one event per conn.Write and one event per full-buffer fill
(recvPeek loops over conn.Read until the buffer is full; we model the
whole fill as one scripted event).  Alongside the script we record a
trace of every operation performed on the connection (including the
mutex and deadline manipulations of protocol.go), so that claims about
the absence of I/O, locking or deadline changes are statable.  An
exhausted or mismatched script behaves as a closed connection (EOF). -/

/-- A root error produced by the network layer.  Only opError
corresponds to a *net.OpError, the type that errors.As extracts; its
flag records whether the error reports a timeout (as a deadline
exceeded does). -/
inductive NetError where
  | opError (timeout : Bool)
  | eof
  | shortWrite
  | noProgress
  deriving DecidableEq, Repr

/-- errors.As(err, &netErr) with netErr a *net.OpError: succeeds exactly
on the opError constructor. -/
def NetError.asNetOp : NetError → Option NetError
  | .opError t => some (.opError t)
  | _ => none

/-- One scripted outcome of the connection. -/
inductive NetEvent where
  | writeOk
  | writeErr (e : NetError)
  | readOk (bytes : List Nat)
  | readErr (e : NetError)
  deriving DecidableEq, Repr

/-- An operation performed on the connection or its guarding state. -/
inductive ConnOp where
  | lock
  | unlock
  | setDeadline (d : Option Nat)
  | write (bytes : List Nat)
  | read (n : Nat)
  deriving DecidableEq, Repr

/-- The connection state: the not-yet-consumed script and the trace of
operations performed so far. -/
structure NetState where
  events : List NetEvent
  trace : List ConnOp
  deriving DecidableEq, Repr

/-- Record an operation in the trace. -/
def NetState.emit (s : NetState) (op : ConnOp) : NetState :=
  { s with trace := s.trace ++ [op] }

/-- conn.Write of the given bytes: consumes the next scripted event and
yields its outcome (none on a complete write). -/
def connWrite (s : NetState) (bytes : List Nat) : Option NetError × NetState :=
  let s := s.emit (.write bytes)
  match s.events with
  | .writeOk :: rest => (none, { s with events := rest })
  | .writeErr e :: rest => (some e, { s with events := rest })
  | _ :: rest => (some .eof, { s with events := rest })
  | [] => (some .eof, s)

/-- recvPeek: fill an n-byte buffer from the connection.  Consumes the
next scripted event; received bytes are truncated or zero-extended to
exactly n. -/
def connRead (s : NetState) (n : Nat) : Except NetError (List Nat) × NetState :=
  let s := s.emit (.read n)
  match s.events with
  | .readOk bytes :: rest =>
      (.ok (bytes.take n ++ List.replicate (n - bytes.length) 0), { s with events := rest })
  | .readErr e :: rest => (.error e, { s with events := rest })
  | _ :: rest => (.error .eof, { s with events := rest })
  | [] => (.error .eof, s)

/-! ## Protocol (internal/protocol/protocol.go) -/

/-- The mutable state a Protocol owns besides the connection: the
negotiated version and the sticky network-error flag. -/
structure ProtocolState where
  version : Nat
  netErr : Option NetError
  deriving DecidableEq, Repr

/-- The 8 raw header bytes of a message as sent by sendHeader and
parsed by recvHeader: uint32 words, uint8 type, uint8 schema, uint16
flags, all little-endian. -/
def Message.headerBytes (m : Message) : List Nat :=
  uint32Bytes m.words ++ [m.mtype % 256, m.schema % 256] ++ uint16Bytes m.extra

/-- Protocol.send: write the header, then the body. -/
def sendM (s : NetState) (req : Message) : Option NetError × NetState :=
  match connWrite s req.headerBytes with
  | (some e, s1) => (some e, s1)
  | (none, s1) => connWrite s1 req.payload

/-- Protocol.recvHeader: read exactly the 8 header bytes and parse the
little-endian fields into the message. -/
def recvHeaderM (s : NetState) (res : Message) : Except NetError Message × NetState :=
  match connRead s messageHeaderSize with
  | (.error e, s1) => (.error e, s1)
  | (.ok b, s1) =>
      (.ok { res with
              words := leNat (b.take 4)
              mtype := b.getD 4 0
              schema := b.getD 5 0
              extra := leNat (b.drop 6) }, s1)

/-- The buffer-growth loop of Protocol.recvBody: while the expected
body size n exceeds the buffer length, replace the buffer by one of
double the length.  The fuel only bounds the iteration count; none
models the diverging case of a zero-length buffer facing a non-empty
body, which the loop never escapes. -/
def growLoop (fuel len n : Nat) : Option Nat :=
  match fuel with
  | 0 => if n > len then none else some len
  | fuel + 1 => if n > len then growLoop fuel (len * 2) n else some len

/-- Protocol.recvBody: compute the expected body size from the parsed
word count, grow the message buffer if needed (a fresh zeroed buffer,
as the source allocates a new slice without copying), then read exactly
that many bytes into the front of the buffer. -/
def recvBodyM (s : NetState) (res : Message) : Option (Except NetError Message × NetState) :=
  let n := res.words * messageWordSize
  match growLoop n res.body.bytes.length n with
  | none => none
  | some newLen =>
    let buffer := if newLen = res.body.bytes.length then res.body.bytes
                  else List.replicate newLen 0
    match connRead s n with
    | (.error e, s1) => some (.error e, s1)
    | (.ok wire, s1) =>
        some (.ok { res with body := { bytes := wire ++ buffer.drop n
                                       offset := res.body.offset } }, s1)

/-- Protocol.recv: reset the response message, then receive header and
body. -/
def recvM (s : NetState) (res : Message) : Option (Except NetError Message × NetState) :=
  let res1 := res.reset
  match recvHeaderM s res1 with
  | (.error e, s1) => some (.error e, s1)
  | (.ok res2, s1) => recvBodyM s1 res2

/-- The error Call returns: the cached sticky error (returned as is),
or a send or receive failure (wrapped with phase context in the
source). -/
inductive CallError where
  | sticky (e : NetError)
  | send (e : NetError)
  | recv (e : NetError)
  deriving DecidableEq, Repr

/-- The root network error of a Call error, as errors.As would unwrap
it through the fmt.Errorf %w chain. -/
def CallError.root : CallError → NetError
  | .sticky e => e
  | .send e => e
  | .recv e => e

/-- The deferred error-caching closure of Call: when the call failed
and the root error is a *net.OpError, cache it on the Protocol. -/
def ProtocolState.cacheNetErr (p : ProtocolState) (ce : CallError) : ProtocolState :=
  match ce.root.asNetOp with
  | some e => { p with netErr := some e }
  | none => p

/-- The deferred deadline restore of Call: when a deadline had been
applied, clear it again (conn.SetDeadline(time.Time zero)). -/
def restoreDeadline (deadline : Option Nat) (s : NetState) : NetState :=
  match deadline with
  | some _ => s.emit (.setDeadline none)
  | none => s

/-- The outcome of one Call: the protocol state after the call, the
connection state (script remainder and operation trace), the response
message, and the error if any. -/
structure CallOutcome where
  p : ProtocolState
  net : NetState
  res : Message
  err : Option CallError
  deriving DecidableEq, Repr

/-- Protocol.Call: take the lock; if a network error was cached, fail
immediately with it; otherwise apply the deadline of the caller (when
present) for the duration of the call, send the request, receive the
response, cache any *net.OpError observed, restore the deadline and
release the lock.  The ctx deadline is passed explicitly; none models
a context with no deadline. -/
def call (p : ProtocolState) (deadline : Option Nat) (request res : Message)
    (events : List NetEvent) : Option CallOutcome :=
  let s0 : NetState := { events := events, trace := [.lock] }
  match p.netErr with
  | some e => some { p := p, net := s0.emit .unlock, res := res, err := some (.sticky e) }
  | none =>
    let s1 := match deadline with
      | some d => s0.emit (.setDeadline (some d))
      | none => s0
    match sendM s1 request with
    | (some e, s2) =>
        let s3 := (restoreDeadline deadline s2).emit .unlock
        some { p := p.cacheNetErr (.send e), net := s3, res := res, err := some (.send e) }
    | (none, s2) =>
      match recvM s2 res with
      | none => none
      | some (.error e, s3) =>
          let s4 := (restoreDeadline deadline s3).emit .unlock
          some { p := p.cacheNetErr (.recv e), net := s4, res := res, err := some (.recv e) }
      | some (.ok res2, s3) =>
          let s4 := (restoreDeadline deadline s3).emit .unlock
          some { p := p, net := s4, res := res2, err := none }

/-- Protocol.More: perform the receive step alone on the existing
connection.  The source neither takes the lock, nor consults or updates
the sticky network-error flag, nor touches the stream deadline; the ctx
argument is ignored entirely.  The protocol state is returned as the
method leaves it: unchanged. -/
def more (p : ProtocolState) (ctxDeadline : Option Nat) (res : Message)
    (events : List NetEvent) : Option (ProtocolState × NetState × Except NetError Message) :=
  let _ := ctxDeadline
  let s0 : NetState := { events := events, trace := [] }
  match recvM s0 res with
  | none => none
  | some (.error e, s1) => some (p, s1, .error e)
  | some (.ok res2, s1) => some (p, s1, .ok res2)

/-- The error Interrupt returns: a send or receive failure. -/
inductive InterruptError where
  | send (e : NetError)
  | recv (e : NetError)
  deriving DecidableEq, Repr

/-- The drain loop of Protocol.Interrupt: receive responses, discarding
everything until an Empty response arrives.  Fuel bounds the number of
iterations; interrupt below supplies enough for the script. -/
def interruptLoop (fuel : Nat) (res : Message) (s : NetState) :
    Option (Except NetError Message × NetState) :=
  match fuel with
  | 0 => none
  | fuel + 1 =>
    match recvM s res with
    | none => none
    | some (.error e, s1) => some (.error e, s1)
    | some (.ok res2, s1) =>
        if res2.mtype = ResponseEmpty then some (.ok res2, s1)
        else interruptLoop fuel res2 s1

/-- The outcome of Interrupt: connection state and error if any.
Interrupt does not consult or update the sticky network-error flag. -/
structure InterruptOutcome where
  net : NetState
  err : Option InterruptError
  deriving DecidableEq, Repr

/-- Protocol.Interrupt: take the lock, apply the deadline of the caller
(when present), encode and send an Interrupt request, then drain
responses until an Empty response, finally restore the deadline and
release the lock. -/
def interrupt (deadline : Option Nat) (request res : Message)
    (events : List NetEvent) : Option InterruptOutcome :=
  let s0 : NetState := { events := events, trace := [.lock] }
  let s1 := match deadline with
    | some d => s0.emit (.setDeadline (some d))
    | none => s0
  let req := EncodeInterrupt request 0
  match sendM s1 req with
  | (some e, s2) =>
      some { net := (restoreDeadline deadline s2).emit .unlock, err := some (.send e) }
  | (none, s2) =>
    match interruptLoop (s2.events.length + 1) res s2 with
    | none => none
    | some (.error e, s3) =>
        some { net := (restoreDeadline deadline s3).emit .unlock, err := some (.recv e) }
    | some (.ok _, s3) =>
        some { net := (restoreDeadline deadline s3).emit .unlock, err := none }

/-! ## Connector (internal/protocol/request.go) -/

/-- Node roles (protocol.go): Voter = 0, StandBy = 1, Spare = 2. -/
inductive NodeRole where
  | Voter
  | StandBy
  | Spare
  deriving DecidableEq, Repr

/-- The numeric value of a role, defining probe priority. -/
def NodeRole.val : NodeRole → Nat
  | .Voter => 0
  | .StandBy => 1
  | .Spare => 2

/-- NodeInfo: a candidate server as the node store describes it. -/
structure NodeInfo where
  ID : Nat
  Address : String
  Role : NodeRole
  deriving DecidableEq, Repr

/-- The role-ascending comparison used to sort candidates.  The source
sorts with sort.Slice and the strict comparison Role less-than; that
sort is unstable, so only the role order of the result is specified;
insertion sort by the reflexive closure realises one such sorted
permutation. -/
def roleLe (a b : NodeInfo) : Prop := a.Role.val ≤ b.Role.val

instance : DecidableRel roleLe := fun a b => Nat.decLe a.Role.val b.Role.val

/-- connectAttemptAll sorts the candidate list by role, from low to
high, before probing. -/
def sortByRole (servers : List NodeInfo) : List NodeInfo :=
  List.insertionSort roleLe servers

/-- The outcome of one connectAttemptOne invocation, as
connectAttemptAll classifies it: the target is the leader (an
established, registered Protocol is returned), the target knows no
leader, the target names another node as leader, the attempt failed, or
the failure was the bad-protocol symptom that triggers the legacy
handshake retry. -/
inductive Probe where
  | leader
  | noLeader
  | redirect (addr : String)
  | fail
  | badProtocol
  deriving DecidableEq, Repr

/-- The loop body of connectAttemptAll for one candidate, probing via
the oracle (address, protocol version) to outcome.  Returns the
established protocol identity (address and version it was connected
with), or none to move on to the next candidate, together with the list
of connectAttemptOne invocations made: first the candidate itself with
version 1, after a bad-protocol symptom the candidate again with the
legacy version, and on a redirect exactly one probe of the named leader
with the version in use, whose answer is never followed further. -/
def attemptCandidate (probe : String → Nat → Probe) (address : String) :
    Option (String × Nat) × List (String × Nat) :=
  let r1 := probe address VersionOne
  let version := if r1 = .badProtocol then VersionLegacy else VersionOne
  let r := if r1 = .badProtocol then probe address VersionLegacy else r1
  let trace := if r1 = .badProtocol then [(address, VersionOne), (address, VersionLegacy)]
               else [(address, VersionOne)]
  match r with
  | .leader => (some (address, version), trace)
  | .fail => (none, trace)
  | .badProtocol => (none, trace)
  | .noLeader => (none, trace)
  | .redirect leader =>
      let trace := trace ++ [(leader, version)]
      match probe leader version with
      | .leader => (some (leader, version), trace)
      | _ => (none, trace)

/-- The candidate loop of connectAttemptAll over an already sorted
list: try each candidate in order until one yields a protocol; none
models the ErrNoAvailableLeader return. -/
def attemptAllGo (probe : String → Nat → Probe) :
    List NodeInfo → Option (String × Nat) × List (String × Nat)
  | [] => (none, [])
  | server :: rest =>
    match attemptCandidate probe server.Address with
    | (some pr, t) => (some pr, t)
    | (none, t) =>
        let (r, t2) := attemptAllGo probe rest
        (r, t ++ t2)

/-- Connector.connectAttemptAll: fetch the candidates (given here
directly), sort them by role ascending, and probe them in order. -/
def connectAttemptAll (probe : String → Nat → Probe) (servers : List NodeInfo) :
    Option (String × Nat) × List (String × Nat) :=
  attemptAllGo probe (sortByRole servers)

/-- strategy.Limit from Rican7/retry v0.3: permit attempt numbers
strictly below the limit. -/
def strategyLimit (attemptLimit : Nat) (attempt : Nat) : Bool :=
  attempt < attemptLimit

/-- makeRetryStrategies (request.go): one more than the configured
retry limit (compensating the Limit semantics change of Rican7/retry
pull request 12), a Limit strategy only when that is above one, and the
backoff strategy, which sleeps and then always allows the attempt
(time is not modelled, so only its constant true answer appears). -/
def makeRetryStrategies (limit : Nat) : List (Nat → Bool) :=
  let limit := limit + 1
  (if limit > 1 then [strategyLimit limit] else []) ++ [fun _ => true]

/-- retry shouldAttempt: every strategy must allow the attempt. -/
def shouldAttempt (strategies : List (Nat → Bool)) (attempt : Nat) : Bool :=
  strategies.all (fun strat => strat attempt)

/-- retry.Retry from Rican7/retry v0.3, specialised to the action
Connect passes it: the loop runs while this is the first attempt or the
previous action failed, and every strategy allows the attempt.  The
action first checks the context (done, indexed by the attempt counter
as the clock): a cancelled context makes it return nil without probing;
otherwise it runs connectAttemptAll, whose outcome per attempt is given
by the oracle (some established protocol, or none for a failed pass).
State carried: the attempt counter, whether the last action errored,
the protocol variable, and the count of connectAttemptAll invocations.
Fuel bounds the iterations (the loop is unbounded when no Limit
strategy is configured); none means the fuel ran out. -/
def retryConnect (strategies : List (Nat → Bool)) (done : Nat → Bool)
    (attemptAll : Nat → Option (String × Nat)) :
    Nat → Nat → Bool → Option (String × Nat) → Nat →
    Option (Bool × Option (String × Nat) × Nat × Nat)
  | 0, _, _, _, _ => none
  | fuel + 1, attempt, errFlag, protocol, calls =>
    if (attempt = 0 || errFlag) && shouldAttempt strategies attempt then
      if done attempt then
        retryConnect strategies done attemptAll fuel (attempt + 1) false protocol calls
      else
        match attemptAll attempt with
        | some pr => retryConnect strategies done attemptAll fuel (attempt + 1) false (some pr) (calls + 1)
        | none => retryConnect strategies done attemptAll fuel (attempt + 1) true protocol (calls + 1)
    else
      some (errFlag, protocol, attempt, calls)

/-- The result of Connector.Connect. -/
inductive ConnectResult where
  | ok (pr : String × Nat)
  | noAvailableLeader
  | panicNoProtocol
  deriving DecidableEq, Repr

/-- Connector.Connect over the abstract per-attempt outcome: run the
retry loop with the configured strategies; a final error means the
retries allowed by the strategy were exhausted and yields
ErrNoAvailableLeader; a context already done after the loop also
yields ErrNoAvailableLeader; otherwise the established protocol is
returned (a missing one would be the panic of the source).  The second
component counts the connectAttemptAll invocations performed. -/
def connect (limit : Nat) (done : Nat → Bool)
    (attemptAll : Nat → Option (String × Nat)) (fuel : Nat) :
    Option (ConnectResult × Nat) :=
  match retryConnect (makeRetryStrategies limit) done attemptAll fuel 0 false none 0 with
  | none => none
  | some (errFlag, protocol, finalAttempt, calls) =>
    if errFlag then some (.noAvailableLeader, calls)
    else if done finalAttempt then some (.noAvailableLeader, calls)
    else match protocol with
      | some pr => some (.ok pr, calls)
      | none => some (.panicNoProtocol, calls)

/-! ## YamlNodeStore (client/store.go)

Slices are modelled with an explicit heap (a list of allocated NodeInfo
lists addressed by index), so that the aliasing claims - Get hands out
a fresh copy, mutating it never reaches the store - are statable. -/

/-- A YamlNodeStore: the backing file path and a reference to the
in-memory server list. -/
structure YamlNodeStore where
  path : String
  servers : Nat
  deriving DecidableEq, Repr

/-- Read a slice from the heap. -/
def heapGet (heap : List (List NodeInfo)) (ref : Nat) : List NodeInfo :=
  heap.getD ref []

/-- Overwrite a slice in the heap (a caller mutating a slice it
holds). -/
def heapSet (heap : List (List NodeInfo)) (ref : Nat) (v : List NodeInfo) :
    List (List NodeInfo) :=
  heap.set ref v

/-- YamlNodeStore.Get: allocate a fresh slice, copy the current
servers into it, and return the fresh reference; the store itself is
untouched and no error is possible. -/
def YamlNodeStore.get (s : YamlNodeStore) (heap : List (List NodeInfo)) :
    Nat × List (List NodeInfo) :=
  (heap.length, heap ++ [heapGet heap s.servers])

/-- The outcomes of the external collaborators Set relies on:
yaml.Marshal and renameio.WriteFile. -/
structure YamlSetEnv where
  marshalOk : Bool
  writeOk : Bool
  deriving DecidableEq, Repr

/-- YamlNodeStore.Set: marshal the server list, write the YAML file,
and only if both succeeded install the given servers reference (the
source keeps the slice of the caller itself); on either failure the error is
returned and the store left as it was. -/
def YamlNodeStore.set (s : YamlNodeStore) (env : YamlSetEnv) (serversRef : Nat) :
    YamlNodeStore × Option String :=
  if !env.marshalOk then (s, some "marshal error")
  else if !env.writeOk then (s, some "write error")
  else ({ s with servers := serversRef }, none)

/-- A concrete probe oracle for exercising the redirect path: node n1
names n2 as leader, n2 confirms leadership, everything else fails. -/
def redirectProbeExample : String → Nat → Probe := fun a _ =>
  if a = "n1" then Probe.redirect "n2"
  else if a = "n2" then Probe.leader
  else Probe.fail

/-! ## Observations on connection traces -/

/-- Whether an operation is plain input/output on the stream (a write
or a read), as opposed to locking or deadline manipulation. -/
def ConnOp.isIoOp : ConnOp → Bool
  | .write _ => true
  | .read _ => true
  | _ => false

/-- Whether an operation manipulates the stream deadline. -/
def ConnOp.isDeadlineOp : ConnOp → Bool
  | .setDeadline _ => true
  | _ => false

instance : IsTotal NodeInfo roleLe :=
  ⟨fun a b => Nat.le_total a.Role.val b.Role.val⟩

instance : IsTrans NodeInfo roleLe :=
  ⟨fun _ _ _ => Nat.le_trans⟩

/-! # Theorems -/

/-- C1 counterexample: the claim states that the busy and busy-snapshot
codes are mapped to driver.ErrBadConn; in the code they fall through to
the default branch of the switch and come back as typed application
errors carrying the code and description. -/
theorem C1_counterexample :
    driverError (GoError.request ErrBusy "database is locked") =
      DriverVerdict.appError 5 "database is locked" ∧
    driverError (GoError.request ErrBusySnapshot "busy snapshot") =
      DriverVerdict.appError 517 "busy snapshot" ∧
    driverError (GoError.request ErrBusy "database is locked") ≠
      DriverVerdict.badConn := by
  refine ⟨rfl, rfl, ?_⟩
  decide

/-- C1 amended: driverError maps the not-leader, leadership-lost (in
their current and legacy numeric values) and not-found codes of a
failure response to the connection-dead signal driver.ErrBadConn, and a
zero code accompanying a failure response likewise; every other
non-zero code - including busy and busy-snapshot - is returned as a
typed application error carrying that code and its description. -/
theorem C1_error_code_classification (code : Nat) (desc : String) :
    driverError (GoError.request code desc) =
      if code = errIoErrNotLeaderLegacy ∨ code = errIoErrLeadershipLostLegacy ∨
         code = errIoErrNotLeader ∨ code = errIoErrLeadershipLost ∨
         code = errNotFound ∨ code = 0
      then DriverVerdict.badConn
      else DriverVerdict.appError code desc := by
  simp only [driverError]
  split_ifs with h1 h2 h3 h4 h5 h6 <;> simp_all

/-- When every probe answers that it knows no leader, the candidate
loop probes each candidate exactly once with version 1, in list order,
and ends with no available leader. -/
theorem attemptAllGo_noLeader (l : List NodeInfo) :
    attemptAllGo (fun _ _ => Probe.noLeader) l =
      (none, l.map (fun s => (s.Address, VersionOne))) := by
  induction l with
  | nil => rfl
  | cons server rest ih =>
      simp [attemptAllGo, attemptCandidate, ih]

/-- C4: connectAttemptAll probes candidates in ascending role order:
its candidate list is sorted by role value (Voter = 0 before
StandBy = 1 before Spare = 2) and is a permutation of the list the node
store returned; with an oracle in which no candidate knows a leader the
probe trace is exactly the sorted candidate list, and in particular
candidates with roles [Spare, Voter, StandBy] are probed in the order
Voter, StandBy, Spare. -/
theorem C4_role_ordered_probing :
    (∀ servers : List NodeInfo,
        List.Sorted roleLe (sortByRole servers) ∧ (sortByRole servers).Perm servers) ∧
    (∀ servers : List NodeInfo,
        connectAttemptAll (fun _ _ => Probe.noLeader) servers =
          (none, (sortByRole servers).map (fun s => (s.Address, VersionOne)))) ∧
    connectAttemptAll (fun _ _ => Probe.noLeader)
        [{ ID := 1, Address := "spare", Role := .Spare },
         { ID := 2, Address := "voter", Role := .Voter },
         { ID := 3, Address := "standby", Role := .StandBy }] =
      (none, [("voter", VersionOne), ("standby", VersionOne), ("spare", VersionOne)]) := by
  refine ⟨fun servers => ⟨?_, ?_⟩, fun servers => ?_, ?_⟩
  · exact List.sorted_insertionSort roleLe servers
  · exact List.perm_insertionSort roleLe servers
  · simp [connectAttemptAll, attemptAllGo_noLeader]
  · decide

/-- C5: a candidate that names another node L as leader causes exactly
one direct probe of L, with the protocol version already in use for
that candidate (version 1, or the legacy version if the candidate
needed the legacy fallback).  If L confirms leadership, its protocol is
the overall success; in every other case (unreachable, no leader known,
or naming yet another leader - the redirect answer of a redirect target
is never followed) the loop moves on to the remaining original
candidates. -/
theorem C5_single_redirect_hop (probe : String → Nat → Probe) (server : NodeInfo)
    (rest : List NodeInfo) (L : String) (v : Nat)
    (hv : v = if probe server.Address VersionOne = Probe.badProtocol
              then VersionLegacy else VersionOne)
    (hr : (if probe server.Address VersionOne = Probe.badProtocol
           then probe server.Address VersionLegacy
           else probe server.Address VersionOne) = Probe.redirect L) :
    ((attemptCandidate probe server.Address).2 =
      (if probe server.Address VersionOne = Probe.badProtocol
       then [(server.Address, VersionOne), (server.Address, VersionLegacy)]
       else [(server.Address, VersionOne)]) ++ [(L, v)]) ∧
    (probe L v = Probe.leader →
      attemptAllGo probe (server :: rest) =
        (some (L, v), (attemptCandidate probe server.Address).2)) ∧
    (probe L v ≠ Probe.leader →
      attemptAllGo probe (server :: rest) =
        ((attemptAllGo probe rest).1,
         (attemptCandidate probe server.Address).2 ++ (attemptAllGo probe rest).2)) := by
  have hcand : attemptCandidate probe server.Address =
      (match probe L v with
       | Probe.leader => (some (L, v),
          (if probe server.Address VersionOne = Probe.badProtocol
           then [(server.Address, VersionOne), (server.Address, VersionLegacy)]
           else [(server.Address, VersionOne)]) ++ [(L, v)])
       | _ => (none,
          (if probe server.Address VersionOne = Probe.badProtocol
           then [(server.Address, VersionOne), (server.Address, VersionLegacy)]
           else [(server.Address, VersionOne)]) ++ [(L, v)])) := by
    rw [attemptCandidate]
    simp only [← hv, hr]
  refine ⟨?_, ?_, ?_⟩
  · rw [hcand]
    rcases h : probe L v <;> simp
  · intro hL
    simp [attemptAllGo, hcand, hL]
  · intro hL
    rcases h : probe L v with _ | _ | _ | _ | _
    · exact absurd h hL
    all_goals
      simp [attemptAllGo, hcand, h]

/-- C5 witness: with the concrete redirect oracle, candidate n1 redirects
to n2, which is probed exactly once and confirms leadership. -/
theorem C5_single_redirect_hop_witness :
    ((attemptCandidate redirectProbeExample "n1").2 = [("n1", VersionOne), ("n2", 1)]) ∧
    attemptAllGo redirectProbeExample [{ ID := 1, Address := "n1", Role := .Voter }] =
      (some ("n2", 1), (attemptCandidate redirectProbeExample "n1").2) := by
  have h := C5_single_redirect_hop redirectProbeExample
    { ID := 1, Address := "n1", Role := .Voter } [] "n2" 1 (by decide) (by decide)
  exact ⟨by decide, h.2.1 (by decide)⟩

/-- With a positive retry limit l, the strategies makeRetryStrategies
builds allow exactly the attempt numbers below l + 1: the initial
attempt plus l retries. -/
theorem shouldAttempt_makeRetryStrategies (l a : Nat) (hl : 1 ≤ l) :
    shouldAttempt (makeRetryStrategies l) a = decide (a < l + 1) := by
  have h : l + 1 > 1 := by omega
  simp [shouldAttempt, makeRetryStrategies, strategyLimit, h]

/-- The retry loop of Connect, from any probing-phase state (the
previous action failed, the attempt counter a counts the
connectAttemptAll invocations so far), with a context that becomes done
at attempt k and every probing pass failing: the loop runs until the
context is done or the limit strategy exhausts the allowed attempts. -/
theorem retryConnect_probing (l k : Nat) (hl : 1 ≤ l) :
    ∀ fuel a, 1 ≤ a → a ≤ min k (l + 1) → l + 3 - a ≤ fuel →
    retryConnect (makeRetryStrategies l) (fun j => decide (k ≤ j)) (fun _ => none)
        fuel a true none a =
      some (if k ≤ l then (false, none, k + 1, k) else (true, none, l + 1, l + 1)) := by
  intro fuel
  induction fuel with
  | zero =>
      intro a h1 h2 h3
      omega
  | succ fuel ih =>
      intro a h1 h2 h3
      rw [retryConnect]
      by_cases hlt : a < l + 1
      · have hsa : shouldAttempt (makeRetryStrategies l) a = true := by
          rw [shouldAttempt_makeRetryStrategies l a hl]
          simpa using hlt
        rw [if_pos (by simp [hsa])]
        by_cases hk : k ≤ a
        · have hak : a = k := by omega
          have hkl : k ≤ l := by omega
          rw [if_pos (by simpa using hk)]
          rcases fuel with _ | fuel2
          · exfalso
            omega
          · rw [retryConnect]
            rw [if_neg (by simp)]
            simp [hak, hkl]
        · rw [if_neg (by simpa using hk)]
          exact ih (a + 1) (by omega) (by omega) (by omega)
      · have ha : a = l + 1 := by omega
        have hsa : shouldAttempt (makeRetryStrategies l) a = false := by
          rw [shouldAttempt_makeRetryStrategies l a hl]
          simpa using hlt
        rw [if_neg (by simp [hsa])]
        have hkl : ¬ k ≤ l := by omega
        simp [ha, hkl]

/-- C3 counterexample: with RetryLimit = 2, a context that is never
cancelled and no probing pass ever succeeding, Connect invokes
connectAttemptAll exactly 3 times (the initial attempt plus the 2
configured retries) before returning the no-available-leader error -
not exactly 2 times as the claim states. -/
theorem C3_counterexample :
    connect 2 (fun _ => false) (fun _ => none) 10 =
      some (ConnectResult.noAvailableLeader, 3) ∧
    (connect 2 (fun _ => false) (fun _ => none) 10).map Prod.snd ≠ some 2 := by
  exact ⟨rfl, by decide⟩

/-- C3 amended: with RetryLimit = l at least 1 and no probing pass ever
succeeding, Connect performs exactly l + 1 probing passes (the initial
attempt plus l retries; for RetryLimit = 2 that is 3 passes) and then
returns the no-available-leader error rather than looping forever; a
context cancelled from attempt k onward is observed by the next
attempt, which probes no further, and Connect then returns the
no-available-leader outcome - so exactly min k (l + 1) probing passes
happen.  (The backoff sleep itself is real time and is not modelled;
cancellation is observed at the attempt boundary after it.) -/
theorem C3_retry_termination (l k fuel : Nat) (hl : 1 ≤ l) (hfuel : l + 3 ≤ fuel) :
    connect l (fun j => decide (k ≤ j)) (fun _ => none) fuel =
      some (ConnectResult.noAvailableLeader, min k (l + 1)) := by
  rcases fuel with _ | fuel1
  · exfalso
    omega
  have hsa0 : shouldAttempt (makeRetryStrategies l) 0 = true := by
    rw [shouldAttempt_makeRetryStrategies l 0 hl]
    simp
  by_cases hk : 1 ≤ k
  · have h0 : retryConnect (makeRetryStrategies l) (fun j => decide (k ≤ j)) (fun _ => none)
        (fuel1 + 1) 0 false none 0 =
        some (if k ≤ l then (false, none, k + 1, k) else (true, none, l + 1, l + 1)) := by
      rw [retryConnect]
      rw [if_pos (by simp [hsa0])]
      rw [if_neg (by simp only [decide_eq_true_eq]; omega)]
      exact retryConnect_probing l k hl fuel1 1 (by omega) (by omega) (by omega)
    by_cases hkl : k ≤ l
    · rw [if_pos hkl] at h0
      have hmin : min k (l + 1) = k := by omega
      rw [connect, h0]
      have hd : decide (k ≤ k + 1) = true := by simp
      simp [hd, hmin]
    · rw [if_neg hkl] at h0
      have hmin : min k (l + 1) = l + 1 := by omega
      rw [connect, h0]
      simp [hmin]
  · have hk0 : k = 0 := by omega
    subst hk0
    have h0 : retryConnect (makeRetryStrategies l) (fun j => decide (0 ≤ j)) (fun _ => none)
        (fuel1 + 1) 0 false none 0 = some (false, none, 1, 0) := by
      rw [retryConnect]
      rw [if_pos (by simp [hsa0])]
      rw [if_pos (by simp)]
      rcases fuel1 with _ | fuel2
      · exfalso
        omega
      · rw [retryConnect]
        rw [if_neg (by simp)]
    rw [connect, h0]
    simp

/-- C3 witness: RetryLimit 2, cancellation far in the future: exactly
3 probing passes and the no-available-leader outcome. -/
theorem C3_retry_termination_witness :
    connect 2 (fun j => decide (100 ≤ j)) (fun _ => none) 10 =
      some (ConnectResult.noAvailableLeader, 3) := by
  have h := C3_retry_termination 2 100 10 (by omega) (by omega)
  simpa using h

/-- A write on the connection appends exactly one write operation to
the trace. -/
theorem connWrite_trace (s : NetState) (b : List Nat) :
    ((connWrite s b).2).trace = s.trace ++ [ConnOp.write b] := by
  rcases s with ⟨events, tr⟩
  rcases events with _ | ⟨ev, rest⟩
  · simp [connWrite, NetState.emit]
  · rcases ev <;> simp [connWrite, NetState.emit]

/-- A buffer fill on the connection appends exactly one read operation
to the trace. -/
theorem connRead_trace (s : NetState) (n : Nat) :
    ((connRead s n).2).trace = s.trace ++ [ConnOp.read n] := by
  rcases s with ⟨events, tr⟩
  rcases events with _ | ⟨ev, rest⟩
  · simp [connRead, NetState.emit]
  · rcases ev <;> simp [connRead, NetState.emit]

/-- Protocol.send appends only write operations to the trace. -/
theorem sendM_trace (s : NetState) (req : Message) :
    ∃ t, ((sendM s req).2).trace = s.trace ++ t ∧ t.all ConnOp.isIoOp = true := by
  rw [sendM]
  rcases h1 : connWrite s req.headerBytes with ⟨oe, s1⟩
  have ht1 : s1.trace = s.trace ++ [ConnOp.write req.headerBytes] := by
    have := connWrite_trace s req.headerBytes
    rw [h1] at this
    exact this
  rcases oe with _ | e
  · have ht2 := connWrite_trace s1 req.payload
    refine ⟨[ConnOp.write req.headerBytes, ConnOp.write req.payload], ?_, by simp [ConnOp.isIoOp]⟩
    simp only [ht2, ht1]
    simp
  · exact ⟨[ConnOp.write req.headerBytes], ht1, by simp [ConnOp.isIoOp]⟩

/-- Protocol.recvHeader appends exactly the header read to the trace,
whether it succeeds or fails. -/
theorem recvHeaderM_trace (s : NetState) (res : Message) :
    ((recvHeaderM s res).2).trace = s.trace ++ [ConnOp.read messageHeaderSize] := by
  rw [recvHeaderM]
  rcases h : connRead s messageHeaderSize with ⟨r, s1⟩
  have := connRead_trace s messageHeaderSize
  rw [h] at this
  rcases r <;> simpa using this

/-- Protocol.recvBody appends exactly the body read to the trace. -/
theorem recvBodyM_trace (s : NetState) (res : Message) (r : Except NetError Message)
    (s1 : NetState) (h : recvBodyM s res = some (r, s1)) :
    s1.trace = s.trace ++ [ConnOp.read (res.words * messageWordSize)] := by
  rw [recvBodyM] at h
  rcases hg : growLoop (res.words * messageWordSize) res.body.bytes.length
      (res.words * messageWordSize) with _ | newLen
  · rw [hg] at h
    simp at h
  · rw [hg] at h
    simp only [] at h
    rcases hr : connRead s (res.words * messageWordSize) with ⟨rr, s2⟩
    have htr := connRead_trace s (res.words * messageWordSize)
    rw [hr] at htr h
    rcases rr with e | wire <;>
      simp only [Option.some.injEq, Prod.mk.injEq] at h <;>
      rw [← h.2] <;>
      exact htr

/-- Protocol.recv appends only read operations to the trace, the
header read first. -/
theorem recvM_trace (s : NetState) (res : Message) (r : Except NetError Message)
    (s1 : NetState) (h : recvM s res = some (r, s1)) :
    ∃ t, s1.trace = s.trace ++ t ∧ t.head? = some (ConnOp.read messageHeaderSize) ∧
      t.all ConnOp.isIoOp = true := by
  rw [recvM] at h
  rcases hh : recvHeaderM s res.reset with ⟨hr, s2⟩
  have ht2 : s2.trace = s.trace ++ [ConnOp.read messageHeaderSize] := by
    have := recvHeaderM_trace s res.reset
    rw [hh] at this
    exact this
  rw [hh] at h
  rcases hr with e | res2
  · simp only [Option.some.injEq, Prod.mk.injEq] at h
    rw [← h.2]
    exact ⟨[ConnOp.read messageHeaderSize], ht2, rfl, by simp [ConnOp.isIoOp]⟩
  · have hb := recvBodyM_trace s2 res2 r s1 h
    refine ⟨[ConnOp.read messageHeaderSize, ConnOp.read (res2.words * messageWordSize)],
      ?_, rfl, by simp [ConnOp.isIoOp]⟩
    rw [hb, ht2]
    simp

/-- The deferred closure of Call caches exactly the *net.OpError root
of a failed call on the protocol state. -/
theorem call_caches_netOp (p : ProtocolState) (deadline : Option Nat) (req res : Message)
    (events : List NetEvent) (out : CallOutcome) (ce : CallError) (t : Bool)
    (hnone : p.netErr = none) (hcall : call p deadline req res events = some out)
    (herr : out.err = some ce) (hroot : ce.root = NetError.opError t) :
    out.p.netErr = some (NetError.opError t) := by
  rw [call.eq_def] at hcall
  simp only [hnone] at hcall
  split at hcall
  · obtain rfl := Option.some.inj hcall
    simp only [Option.some.injEq] at herr
    subst herr
    simp only [CallError.root] at hroot
    subst hroot
    simp [ProtocolState.cacheNetErr, CallError.root, NetError.asNetOp]
  · split at hcall
    · simp at hcall
    · obtain rfl := Option.some.inj hcall
      simp only [Option.some.injEq] at herr
      subst herr
      simp only [CallError.root] at hroot
      subst hroot
      simp [ProtocolState.cacheNetErr, CallError.root, NetError.asNetOp]
    · obtain rfl := Option.some.inj hcall
      simp at herr

/-- C2: sticky failure.  First part: when a Call on a clean Protocol
fails and the root cause is a network error (a *net.OpError), that
error is cached on the Protocol state the call returns.  Second part:
a Call on a Protocol that has a cached network error returns exactly
that error immediately: the connection trace is lock-unlock only - no
write, no read, no deadline manipulation - and the scripted connection
is left untouched. -/
theorem C2_sticky_failure (p : ProtocolState) (deadline : Option Nat) (req res : Message)
    (events : List NetEvent) :
    (∀ out ce t, p.netErr = none → call p deadline req res events = some out →
        out.err = some ce → ce.root = NetError.opError t →
        out.p.netErr = some (NetError.opError t)) ∧
    (∀ e, p.netErr = some e →
        call p deadline req res events =
          some { p := p, net := { events := events, trace := [ConnOp.lock, ConnOp.unlock] },
                 res := res, err := some (CallError.sticky e) }) := by
  constructor
  · intro out ce t hnone hcall herr hroot
    exact call_caches_netOp p deadline req res events out ce t hnone hcall herr hroot
  · intro e he
    rw [call.eq_def, he]
    rfl

/-- C2 witness: a first Call fails at the header write with a network
error, which is cached; the second Call returns it with a bare
lock-unlock trace. -/
theorem C2_sticky_failure_witness :
    (call { version := 1, netErr := some (NetError.opError false) } none (Message.init 8)
        (Message.init 8) [] =
      some { p := { version := 1, netErr := some (NetError.opError false) }
             net := { events := [], trace := [ConnOp.lock, ConnOp.unlock] }
             res := Message.init 8
             err := some (CallError.sticky (NetError.opError false)) }) ∧
    ((call { version := 1, netErr := none } none (Message.init 8) (Message.init 8)
        [NetEvent.writeErr (NetError.opError false)]).map (fun o => o.p.netErr) =
      some (some (NetError.opError false))) := by
  constructor
  · exact (C2_sticky_failure { version := 1, netErr := some (NetError.opError false) } none
      (Message.init 8) (Message.init 8) []).2 (NetError.opError false) rfl
  · have hc : call { version := 1, netErr := none } none (Message.init 8) (Message.init 8)
        [NetEvent.writeErr (NetError.opError false)] =
      some { p := { version := 1, netErr := some (NetError.opError false) }
             net := { events := []
                      trace := [ConnOp.lock, ConnOp.write (Message.init 8).headerBytes,
                                ConnOp.unlock] }
             res := Message.init 8
             err := some (CallError.send (NetError.opError false)) } := by rfl
    have hout := (C2_sticky_failure { version := 1, netErr := none } none (Message.init 8)
      (Message.init 8) [NetEvent.writeErr (NetError.opError false)]).1 _
      (CallError.send (NetError.opError false)) false rfl hc rfl rfl
    rw [hc]
    simp [hout]

/-- C9: Protocol.More performs its receive without acquiring the
per-connection mutex, without consulting the sticky network-error flag,
and without caching network errors: the protocol state comes back
exactly as it went in (so a prior cached error does not stop More from
reading, and an error More observes does not make later Calls fail
fast), the trace opens with the header read and consists of plain I/O
only (no lock, no unlock, no deadline operation), and the connection
activity is identical whatever the sticky flag holds. -/
theorem C9_more_bypasses_protocol_state (p : ProtocolState) (d : Option Nat) (res : Message)
    (events : List NetEvent) (out : ProtocolState × NetState × Except NetError Message)
    (h : more p d res events = some out) :
    out.1 = p ∧
    out.2.1.trace.head? = some (ConnOp.read messageHeaderSize) ∧
    out.2.1.trace.all ConnOp.isIoOp = true ∧
    (more { p with netErr := none } d res events).map Prod.snd = some out.2 := by
  have hm : ∀ q : ProtocolState, more q d res events =
      (match recvM { events := events, trace := [] } res with
       | none => none
       | some (.error e, s1) => some (q, s1, .error e)
       | some (.ok res2, s1) => some (q, s1, .ok res2)) := fun q => rfl
  rw [hm] at h
  rcases hr : recvM { events := events, trace := [] } res with _ | ⟨rr, s1⟩
  · rw [hr] at h
    simp at h
  · rw [hr] at h
    obtain ⟨t, htr, hhd, hio⟩ := recvM_trace _ _ _ _ hr
    simp only [List.nil_append] at htr
    rcases rr with e | res2 <;>
      obtain rfl := Option.some.inj h <;>
      exact ⟨rfl, by rw [htr]; exact hhd, by rw [htr]; exact hio, by rw [hm, hr]; rfl⟩

/-- C9 witness: with a cached network error on the protocol, More still
attempts the read (and fails with the scripted EOF), leaving the cached
error exactly as it was. -/
theorem C9_more_bypasses_witness :
    more { version := 1, netErr := some (NetError.opError false) } (some 7) (Message.init 8)
        [NetEvent.readErr NetError.eof] =
      some ({ version := 1, netErr := some (NetError.opError false) },
            { events := [], trace := [ConnOp.read messageHeaderSize] },
            Except.error NetError.eof) ∧
    ({ version := 1, netErr := some (NetError.opError false) } : ProtocolState) =
      { version := 1, netErr := some (NetError.opError false) } ∧
    [ConnOp.read messageHeaderSize].all ConnOp.isIoOp = true := by
  refine ⟨rfl, ?_, ?_⟩
  · exact (C9_more_bypasses_protocol_state
      { version := 1, netErr := some (NetError.opError false) } (some 7) (Message.init 8)
      [NetEvent.readErr NetError.eof] _ rfl).1
  · decide

/-- C6 counterexample: a More invocation whose context carries a
deadline performs its blocking read without ever applying a deadline to
the stream - the whole connection trace is the single read, with no
deadline operation in it - contradicting the claim that every blocking
operation (Call, More, Interrupt) applies the context deadline to the
stream. -/
theorem C6_counterexample :
    (more { version := 1, netErr := none } (some 99) (Message.init 8)
        [NetEvent.readErr NetError.eof]).map
        (fun out => out.2.1.trace.filter ConnOp.isDeadlineOp) = some [] ∧
    (more { version := 1, netErr := none } (some 99) (Message.init 8)
        [NetEvent.readErr NetError.eof]).map (fun out => out.2.1.trace) =
      some [ConnOp.read messageHeaderSize] := by
  exact ⟨rfl, rfl⟩

/-- The drain loop of Interrupt appends only plain I/O operations to
the trace. -/
theorem interruptLoop_trace (fuel : Nat) :
    ∀ res s r s1, interruptLoop fuel res s = some (r, s1) →
      ∃ t, s1.trace = s.trace ++ t ∧ t.all ConnOp.isIoOp = true := by
  induction fuel with
  | zero =>
      intro res s r s1 h
      rw [interruptLoop] at h
      simp at h
  | succ fuel ih =>
      intro res s r s1 h
      rw [interruptLoop] at h
      rcases hr : recvM s res with _ | ⟨rr, s2⟩
      · rw [hr] at h
        simp at h
      · rw [hr] at h
        obtain ⟨t1, ht1, _, hio1⟩ := recvM_trace _ _ _ _ hr
        rcases rr with e | res2
        · simp only [Option.some.injEq, Prod.mk.injEq] at h
          obtain ⟨rfl, rfl⟩ := h
          exact ⟨t1, ht1, hio1⟩
        · have h2 : (if res2.mtype = ResponseEmpty then some (Except.ok res2, s2)
              else interruptLoop fuel res2 s2) = some (r, s1) := h
          by_cases he : res2.mtype = ResponseEmpty
          · rw [if_pos he] at h2
            simp only [Option.some.injEq, Prod.mk.injEq] at h2
            obtain ⟨rfl, rfl⟩ := h2
            exact ⟨t1, ht1, hio1⟩
          · rw [if_neg he] at h2
            obtain ⟨t2, ht2, hio2⟩ := ih res2 s2 r s1 h2
            refine ⟨t1 ++ t2, ?_, ?_⟩
            · rw [ht2, ht1, List.append_assoc]
            · simp only [List.all_append, hio1, hio2, Bool.and_true]

/-- A trace of plain I/O operations contains no deadline operation. -/
theorem filter_deadline_eq_nil (t : List ConnOp) (h : t.all ConnOp.isIoOp = true) :
    t.filter ConnOp.isDeadlineOp = [] := by
  induction t with
  | nil => rfl
  | cons op rest ih =>
      simp only [List.all_cons, Bool.and_eq_true] at h
      rcases op with _ | _ | dd | bs | n
      · exact absurd h.1 (by simp [ConnOp.isIoOp])
      · exact absurd h.1 (by simp [ConnOp.isIoOp])
      · exact absurd h.1 (by simp [ConnOp.isIoOp])
      · simp [List.filter_cons, ConnOp.isDeadlineOp, ih h.2]
      · simp [List.filter_cons, ConnOp.isDeadlineOp, ih h.2]

/-- A Call on a clean protocol with a context deadline sets the stream
deadline right after taking the lock, performs only plain I/O in
between, and restores the no-deadline state before unlocking - on every
path, success or failure. -/
theorem call_deadline_bracket (p : ProtocolState) (d : Nat) (req res : Message)
    (events : List NetEvent) (out : CallOutcome) (hnone : p.netErr = none)
    (hcall : call p (some d) req res events = some out) :
    ∃ mid, out.net.trace =
        ConnOp.lock :: ConnOp.setDeadline (some d) ::
          (mid ++ [ConnOp.setDeadline none, ConnOp.unlock]) ∧
      mid.all ConnOp.isIoOp = true := by
  rw [call.eq_def] at hcall
  simp only [hnone] at hcall
  obtain ⟨t1, ht1, hio1⟩ := sendM_trace
    (NetState.emit { events := events, trace := [ConnOp.lock] } (ConnOp.setDeadline (some d))) req
  split at hcall
  case _ e s2 heq =>
    obtain rfl := Option.some.inj hcall
    rw [heq] at ht1
    have ht1b : s2.trace = [ConnOp.lock, ConnOp.setDeadline (some d)] ++ t1 := ht1
    refine ⟨t1, ?_, hio1⟩
    simp [restoreDeadline, NetState.emit, ht1b]
  case _ s2 heq =>
    rw [heq] at ht1
    have ht1b : s2.trace = [ConnOp.lock, ConnOp.setDeadline (some d)] ++ t1 := ht1
    split at hcall
    · simp at hcall
    case _ e s3 heq2 =>
      obtain rfl := Option.some.inj hcall
      obtain ⟨t2, ht2, _, hio2⟩ := recvM_trace s2 res _ _ heq2
      refine ⟨t1 ++ t2, ?_, by simp [List.all_append, hio1, hio2]⟩
      simp [restoreDeadline, NetState.emit, ht2, ht1b]
    case _ res2 s3 heq2 =>
      obtain rfl := Option.some.inj hcall
      obtain ⟨t2, ht2, _, hio2⟩ := recvM_trace s2 res _ _ heq2
      refine ⟨t1 ++ t2, ?_, by simp [List.all_append, hio1, hio2]⟩
      simp [restoreDeadline, NetState.emit, ht2, ht1b]

/-- A Call on a clean protocol without a context deadline never touches
the stream deadline: the trace is the lock, plain I/O, and the
unlock. -/
theorem call_no_deadline (p : ProtocolState) (req res : Message)
    (events : List NetEvent) (out : CallOutcome) (hnone : p.netErr = none)
    (hcall : call p none req res events = some out) :
    ∃ mid, out.net.trace = ConnOp.lock :: (mid ++ [ConnOp.unlock]) ∧
      mid.all ConnOp.isIoOp = true := by
  rw [call.eq_def] at hcall
  simp only [hnone] at hcall
  obtain ⟨t1, ht1, hio1⟩ := sendM_trace
    ({ events := events, trace := [ConnOp.lock] } : NetState) req
  split at hcall
  case _ e s2 heq =>
    obtain rfl := Option.some.inj hcall
    rw [heq] at ht1
    have ht1b : s2.trace = [ConnOp.lock] ++ t1 := ht1
    refine ⟨t1, ?_, hio1⟩
    simp [restoreDeadline, NetState.emit, ht1b]
  case _ s2 heq =>
    rw [heq] at ht1
    have ht1b : s2.trace = [ConnOp.lock] ++ t1 := ht1
    split at hcall
    · simp at hcall
    case _ e s3 heq2 =>
      obtain rfl := Option.some.inj hcall
      obtain ⟨t2, ht2, _, hio2⟩ := recvM_trace s2 res _ _ heq2
      refine ⟨t1 ++ t2, ?_, by simp [List.all_append, hio1, hio2]⟩
      simp [restoreDeadline, NetState.emit, ht2, ht1b]
    case _ res2 s3 heq2 =>
      obtain rfl := Option.some.inj hcall
      obtain ⟨t2, ht2, _, hio2⟩ := recvM_trace s2 res _ _ heq2
      refine ⟨t1 ++ t2, ?_, by simp [List.all_append, hio1, hio2]⟩
      simp [restoreDeadline, NetState.emit, ht2, ht1b]

/-- An Interrupt with a context deadline brackets all its I/O between
setting the deadline and restoring the no-deadline state, like Call. -/
theorem interrupt_deadline_bracket (d : Nat) (req res : Message)
    (events : List NetEvent) (out : InterruptOutcome)
    (hint : interrupt (some d) req res events = some out) :
    ∃ mid, out.net.trace =
        ConnOp.lock :: ConnOp.setDeadline (some d) ::
          (mid ++ [ConnOp.setDeadline none, ConnOp.unlock]) ∧
      mid.all ConnOp.isIoOp = true := by
  rw [interrupt.eq_def] at hint
  simp only [] at hint
  obtain ⟨t1, ht1, hio1⟩ := sendM_trace
    (NetState.emit { events := events, trace := [ConnOp.lock] } (ConnOp.setDeadline (some d)))
    (EncodeInterrupt req 0)
  split at hint
  case _ e s2 heq =>
    obtain rfl := Option.some.inj hint
    rw [heq] at ht1
    have ht1b : s2.trace = [ConnOp.lock, ConnOp.setDeadline (some d)] ++ t1 := ht1
    refine ⟨t1, ?_, hio1⟩
    simp [restoreDeadline, NetState.emit, ht1b]
  case _ s2 heq =>
    rw [heq] at ht1
    have ht1b : s2.trace = [ConnOp.lock, ConnOp.setDeadline (some d)] ++ t1 := ht1
    split at hint
    · simp at hint
    case _ e s3 heq2 =>
      obtain rfl := Option.some.inj hint
      obtain ⟨t2, ht2, hio2⟩ := interruptLoop_trace _ _ _ _ _ heq2
      refine ⟨t1 ++ t2, ?_, by simp [List.all_append, hio1, hio2]⟩
      simp [restoreDeadline, NetState.emit, ht2, ht1b]
    case _ res2 s3 heq2 =>
      obtain rfl := Option.some.inj hint
      obtain ⟨t2, ht2, hio2⟩ := interruptLoop_trace _ _ _ _ _ heq2
      refine ⟨t1 ++ t2, ?_, by simp [List.all_append, hio1, hio2]⟩
      simp [restoreDeadline, NetState.emit, ht2, ht1b]

/-- More never touches the stream deadline, whatever its context
carries. -/
theorem more_no_deadline (p : ProtocolState) (d : Option Nat) (res : Message)
    (events : List NetEvent) (out : ProtocolState × NetState × Except NetError Message)
    (h : more p d res events = some out) :
    out.2.1.trace.filter ConnOp.isDeadlineOp = [] := by
  have hm : more p d res events =
      (match recvM { events := events, trace := [] } res with
       | none => none
       | some (.error e, s1) => some (p, s1, .error e)
       | some (.ok res2, s1) => some (p, s1, .ok res2)) := rfl
  rw [hm] at h
  rcases hr : recvM { events := events, trace := [] } res with _ | ⟨rr, s1⟩
  · rw [hr] at h
    simp at h
  · rw [hr] at h
    obtain ⟨t, htr, _, hio⟩ := recvM_trace _ _ _ _ hr
    simp only [List.nil_append] at htr
    rcases rr with e | res2 <;>
      obtain rfl := Option.some.inj h <;>
      exact htr ▸ filter_deadline_eq_nil t hio

/-- On a clean protocol, a network timeout error hit by the first write
surfaces as the error Call returns; the model is total, so the
operation returns rather than hangs. -/
theorem call_timeout_surfaces (p : ProtocolState) (d : Nat) (req res : Message)
    (rest : List NetEvent) (hnone : p.netErr = none) :
    (call p (some d) req res (NetEvent.writeErr (NetError.opError true) :: rest)).map
        (fun o => o.err) = some (some (CallError.send (NetError.opError true))) := by
  rw [call.eq_def]
  simp [hnone, sendM, connWrite, NetState.emit]

/-- C6 amended: Call and Interrupt apply a deadline present on the
context to the underlying stream for the duration of the operation
only - the trace is the lock, the deadline set, plain I/O, the
no-deadline restore, the unlock, on success and failure paths alike -
and without a context deadline Call never touches the stream deadline;
a timeout network error raised by the stream surfaces as the returned
error.  More, by contrast, performs its receive without applying the
context deadline at all: its trace never contains a deadline
operation. -/
theorem C6_deadline_scoping :
    (∀ p d req res events out, p.netErr = none →
        call p (some d) req res events = some out →
        ∃ mid, out.net.trace = ConnOp.lock :: ConnOp.setDeadline (some d) ::
            (mid ++ [ConnOp.setDeadline none, ConnOp.unlock]) ∧
          mid.all ConnOp.isIoOp = true) ∧
    (∀ p req res events out, p.netErr = none →
        call p none req res events = some out →
        ∃ mid, out.net.trace = ConnOp.lock :: (mid ++ [ConnOp.unlock]) ∧
          mid.all ConnOp.isIoOp = true) ∧
    (∀ d req res events out, interrupt (some d) req res events = some out →
        ∃ mid, out.net.trace = ConnOp.lock :: ConnOp.setDeadline (some d) ::
            (mid ++ [ConnOp.setDeadline none, ConnOp.unlock]) ∧
          mid.all ConnOp.isIoOp = true) ∧
    (∀ p d res events out, more p d res events = some out →
        out.2.1.trace.filter ConnOp.isDeadlineOp = []) ∧
    (∀ p d req res rest, p.netErr = none →
        (call p (some d) req res (NetEvent.writeErr (NetError.opError true) :: rest)).map
          (fun o => o.err) = some (some (CallError.send (NetError.opError true)))) := by
  refine ⟨?_, ?_, ?_, ?_, ?_⟩
  · intro p d req res events out h1 h2
    exact call_deadline_bracket p d req res events out h1 h2
  · intro p req res events out h1 h2
    exact call_no_deadline p req res events out h1 h2
  · intro d req res events out h
    exact interrupt_deadline_bracket d req res events out h
  · intro p d res events out h
    exact more_no_deadline p d res events out h
  · intro p d req res rest h
    exact call_timeout_surfaces p d req res rest h

/-- C6 witness: a concrete Call with deadline 5 whose write fails:
the trace is the full bracket lock, set deadline, write, restore,
unlock. -/
theorem C6_deadline_scoping_witness :
    (call { version := 1, netErr := none } (some 5) (Message.init 8) (Message.init 8)
        [NetEvent.writeErr NetError.eof]).map (fun out => out.net.trace) =
      some [ConnOp.lock, ConnOp.setDeadline (some 5),
            ConnOp.write (Message.init 8).headerBytes,
            ConnOp.setDeadline none, ConnOp.unlock] ∧
    (∃ mid, [ConnOp.lock, ConnOp.setDeadline (some 5),
             ConnOp.write (Message.init 8).headerBytes,
             ConnOp.setDeadline none, ConnOp.unlock] =
        ConnOp.lock :: ConnOp.setDeadline (some 5) ::
          (mid ++ [ConnOp.setDeadline none, ConnOp.unlock]) ∧
      mid.all ConnOp.isIoOp = true) := by
  constructor
  · rfl
  · exact C6_deadline_scoping.1 { version := 1, netErr := none } 5 (Message.init 8)
      (Message.init 8) [NetEvent.writeErr NetError.eof] _ rfl rfl

/-- When the growth loop returns, the new length is the old length
doubled the minimal number of times needed to reach the required size:
it is at least the required size, never below the old length, and every
smaller number of doublings falls short. -/
theorem growLoop_some (fuel : Nat) :
    ∀ len n m, growLoop fuel len n = some m →
      n ≤ m ∧ len ≤ m ∧ ∃ k, m = len * 2 ^ k ∧ ∀ j < k, len * 2 ^ j < n := by
  induction fuel with
  | zero =>
      intro len n m h
      rw [growLoop] at h
      split at h
      · simp at h
      · obtain rfl := Option.some.inj h
        exact ⟨by omega, Nat.le_refl _, 0, by simp,
          fun j hj => absurd hj (Nat.not_lt_zero j)⟩
  | succ fuel ih =>
      intro len n m h
      rw [growLoop] at h
      split at h
      case _ hgt =>
        obtain ⟨h1, h2, k, hk, hmin⟩ := ih (len * 2) n m h
        refine ⟨h1, le_trans (by omega) h2, k + 1, by rw [hk]; ring, ?_⟩
        intro j hj
        rcases j with _ | j
        · simpa using hgt
        · have hj2 := hmin j (by omega)
          have heq : len * 2 ^ (j + 1) = len * 2 * 2 ^ j := by ring
          rw [heq]
          exact hj2
      case _ hle =>
        obtain rfl := Option.some.inj h
        exact ⟨by omega, Nat.le_refl _, 0, by simp,
          fun j hj => absurd hj (Nat.not_lt_zero j)⟩

/-- With a positive starting length, the growth loop terminates within
any fuel that lets the doubling reach the required size. -/
theorem growLoop_isSome (fuel : Nat) :
    ∀ len n, 0 < len → n ≤ len * 2 ^ fuel → (growLoop fuel len n).isSome := by
  induction fuel with
  | zero =>
      intro len n hlen hfuel
      rw [growLoop]
      split
      case _ hgt =>
        exfalso
        simp at hfuel
        omega
      · simp
  | succ fuel ih =>
      intro len n hlen hfuel
      rw [growLoop]
      split
      case _ hgt =>
        refine ih (len * 2) n (by omega) ?_
        have heq : len * 2 ^ (fuel + 1) = len * 2 * 2 ^ fuel := by ring
        rw [heq] at hfuel
        exact hfuel
      · simp

/-- A successful buffer fill returns exactly the requested number of
bytes. -/
theorem connRead_ok_length (s : NetState) (n : Nat) (l : List Nat)
    (h : (connRead s n).1 = .ok l) : l.length = n := by
  rcases s with ⟨events, tr⟩
  rcases events with _ | ⟨ev, rest⟩
  · simp [connRead, NetState.emit] at h
  · rcases ev with _ | e | bytes | e <;> simp [connRead, NetState.emit] at h
    rw [← h]
    simp [List.length_take, List.length_replicate]
    omega

/-- C7: when the announced body is larger than the response buffer, the
receive path doubles the buffer capacity repeatedly until it is at
least words times 8 bytes and never shrinks it (the growth loop
succeeds whenever the buffer is non-empty); the already-parsed header
fields - words, type, schema, flags - are unchanged by the growth. -/
theorem C7_receive_growth (s : NetState) (res : Message) :
    (0 < res.body.bytes.length → (recvBodyM s res).isSome) ∧
    (∀ r s1 m, recvBodyM s res = some (r, s1) → r = .ok m →
      res.words * messageWordSize ≤ m.body.bytes.length ∧
      res.body.bytes.length ≤ m.body.bytes.length ∧
      (∃ k, m.body.bytes.length = res.body.bytes.length * 2 ^ k ∧
        ∀ j < k, res.body.bytes.length * 2 ^ j < res.words * messageWordSize) ∧
      m.words = res.words ∧ m.mtype = res.mtype ∧ m.schema = res.schema ∧
      m.extra = res.extra) := by
  constructor
  · intro hlen
    rw [recvBodyM]
    have hG : (growLoop (res.words * messageWordSize) res.body.bytes.length
        (res.words * messageWordSize)).isSome := by
      refine growLoop_isSome _ _ _ hlen ?_
      calc res.words * messageWordSize
          ≤ 2 ^ (res.words * messageWordSize) :=
            Nat.le_of_lt (Nat.lt_two_pow _)
        _ ≤ res.body.bytes.length * 2 ^ (res.words * messageWordSize) :=
            Nat.le_mul_of_pos_left _ hlen
    obtain ⟨newLen, hnl⟩ := Option.isSome_iff_exists.mp hG
    rw [hnl]
    rcases hr : connRead s (res.words * messageWordSize) with ⟨rr, s1⟩
    rcases rr with e | wire <;> simp
  · intro r s1 m h hok
    rw [recvBodyM] at h
    split at h
    · simp at h
    case _ newLen heq =>
      obtain ⟨hge, hle, k, hk, hmin⟩ := growLoop_some _ _ _ _ heq
      rcases hr : connRead s (res.words * messageWordSize) with ⟨rr, s2⟩
      rw [hr] at h
      rcases rr with e | wire
      · simp only [Option.some.injEq, Prod.mk.injEq] at h
        rw [← h.1] at hok
        exact absurd hok (by simp)
      · simp only [Option.some.injEq, Prod.mk.injEq] at h
        rw [← h.1] at hok
        obtain rfl := Except.ok.inj hok
        have hwire : wire.length = res.words * messageWordSize :=
          connRead_ok_length s _ wire (by rw [hr])
        have hmlen : (wire ++ List.drop (res.words * messageWordSize)
            (if newLen = res.body.bytes.length then res.body.bytes
             else List.replicate newLen 0)).length = newLen := by
          simp only [List.length_append, List.length_drop, hwire]
          split
          case _ hif => omega
          case _ hif =>
            simp only [List.length_replicate]
            omega
        refine ⟨?_, ?_, ⟨k, ?_, hmin⟩, rfl, rfl, rfl, rfl⟩
        · simp only [hmlen]
          exact hge
        · simp only [hmlen]
          exact hle
        · simp only [hmlen]
          exact hk

/-- C7 witness: an 8-byte buffer facing a 3-word (24-byte) body is
doubled twice, to 32 bytes, and the parsed header fields survive. -/
theorem C7_receive_growth_witness :
    (0 < ({ words := 3, mtype := 7, schema := 1, extra := 2
            body := { bytes := List.replicate 8 0, offset := 0 } } : Message).body.bytes.length) ∧
    ((recvBodyM { events := [NetEvent.readOk (List.replicate 24 9)], trace := [] }
        { words := 3, mtype := 7, schema := 1, extra := 2
          body := { bytes := List.replicate 8 0, offset := 0 } }).map
      (fun o => o.1.map (fun mm => (mm.body.bytes.length, mm.words, mm.mtype, mm.schema, mm.extra)))
      = some (Except.ok (32, 3, 7, 1, 2))) ∧
    (recvBodyM { events := [NetEvent.readOk (List.replicate 24 9)], trace := [] }
        { words := 3, mtype := 7, schema := 1, extra := 2
          body := { bytes := List.replicate 8 0, offset := 0 } }).isSome := by
  refine ⟨by decide, by rfl, ?_⟩
  exact (C7_receive_growth { events := [NetEvent.readOk (List.replicate 24 9)], trace := [] }
    { words := 3, mtype := 7, schema := 1, extra := 2
      body := { bytes := List.replicate 8 0, offset := 0 } }).1 (by decide)

/-- Writing a chunk into a well-formed body appends it to the encoded
payload and preserves well-formedness (offset within buffer). -/
theorem MBody_put_spec (b : MBody) (chunk : List Nat) (hwf : b.offset ≤ b.bytes.length) :
    (b.put chunk).bytes.take (b.put chunk).offset = b.bytes.take b.offset ++ chunk ∧
    (b.put chunk).offset ≤ (b.put chunk).bytes.length := by
  have hlen : (b.bytes.take b.offset).length = b.offset := by
    simp [List.length_take]
    omega
  constructor
  · show (b.bytes.take b.offset ++ chunk ++ b.bytes.drop (b.offset + chunk.length)).take
        (b.offset + chunk.length) = b.bytes.take b.offset ++ chunk
    rw [List.append_assoc]
    rw [show b.offset + chunk.length = (b.bytes.take b.offset).length + chunk.length by
      rw [hlen]]
    rw [List.take_append]
    congr 1
    exact List.take_left chunk _
  · show b.offset + chunk.length ≤
      (b.bytes.take b.offset ++ chunk ++ b.bytes.drop (b.offset + chunk.length)).length
    simp [List.length_append, hlen]

/-- The message-level version of MBody_put_spec. -/
theorem Message_put_payload (m : Message) (chunk : List Nat)
    (hwf : m.body.offset ≤ m.body.bytes.length) :
    ({ m with body := m.body.put chunk } : Message).payload = m.payload ++ chunk ∧
    ({ m with body := m.body.put chunk } : Message).body.offset ≤
      ({ m with body := m.body.put chunk } : Message).body.bytes.length :=
  MBody_put_spec m.body chunk hwf

/-- Every value payload appends some chunk and preserves
well-formedness. -/
theorem putValue_payload (m : Message) (v : Value)
    (hwf : m.body.offset ≤ m.body.bytes.length) :
    ∃ c, (m.putValue v).payload = m.payload ++ c ∧
      (m.putValue v).body.offset ≤ (m.putValue v).body.bytes.length := by
  rcases v with i | bits | str | data | _ | bb | tt | str
  case blob =>
    have h1 := Message_put_payload m (uint64Bytes data.length) hwf
    have h1p : (m.putUint64 data.length).payload = m.payload ++ uint64Bytes data.length := h1.1
    have h1w : (m.putUint64 data.length).body.offset ≤
        (m.putUint64 data.length).body.bytes.length := h1.2
    have h2 := Message_put_payload (m.putUint64 data.length)
      (data ++ List.replicate (alignWord data.length - data.length) 0) h1w
    have h2p : (m.putBlob data).payload = (m.putUint64 data.length).payload ++
        (data ++ List.replicate (alignWord data.length - data.length) 0) := h2.1
    have h2w : (m.putBlob data).body.offset ≤ (m.putBlob data).body.bytes.length := h2.2
    refine ⟨uint64Bytes data.length ++
      (data ++ List.replicate (alignWord data.length - data.length) 0), ?_, h2w⟩
    show (m.putBlob data).payload = _
    rw [h2p, h1p, List.append_assoc]
  all_goals
    exact ⟨_, Message_put_payload m _ hwf⟩

/-- Folding the value payloads over a well-formed message appends some
chunk and stays well-formed. -/
theorem foldl_putValue_payload (values : List Value) :
    ∀ m : Message, m.body.offset ≤ m.body.bytes.length →
      ∃ c, (values.foldl Message.putValue m).payload = m.payload ++ c ∧
        (values.foldl Message.putValue m).body.offset ≤
          (values.foldl Message.putValue m).body.bytes.length := by
  induction values with
  | nil =>
      intro m hwf
      exact ⟨[], by simp, hwf⟩
  | cons v rest ih =>
      intro m hwf
      obtain ⟨c1, hc1, hwf1⟩ := putValue_payload m v hwf
      obtain ⟨c2, hc2, hwf2⟩ := ih (m.putValue v) hwf1
      exact ⟨c1 ++ c2, by rw [List.foldl_cons, hc2, hc1, List.append_assoc], hwf2⟩

/-- putUint64 appends its eight bytes to the payload. -/
theorem putUint64_payload (m : Message) (v : Nat)
    (hwf : m.body.offset ≤ m.body.bytes.length) :
    (m.putUint64 v).payload = m.payload ++ uint64Bytes v ∧
    (m.putUint64 v).body.offset ≤ (m.putUint64 v).body.bytes.length :=
  Message_put_payload m (uint64Bytes v) hwf

/-- putString appends the padded string chunk to the payload. -/
theorem putString_payload (m : Message) (str : String)
    (hwf : m.body.offset ≤ m.body.bytes.length) :
    (m.putString str).payload = m.payload ++ stringChunk str ∧
    (m.putString str).body.offset ≤ (m.putString str).body.bytes.length :=
  Message_put_payload m (stringChunk str) hwf

/-- The 32-bit named-values encoding opens its parameter block with the
32-bit little-endian count. -/
theorem putNamedValues32_payload (m : Message) (values : List Value)
    (hwf : m.body.offset ≤ m.body.bytes.length) :
    ∃ tail, (m.putNamedValues32 values).payload =
        m.payload ++ (uint32Bytes values.length ++ tail) ∧
      (m.putNamedValues32 values).body.offset ≤
        (m.putNamedValues32 values).body.bytes.length := by
  have h := Message_put_payload m
    (uint32Bytes values.length ++ List.replicate 4 0 ++
      (values.map Value.tag ++ List.replicate
        (alignWord (values.map Value.tag).length - (values.map Value.tag).length) 0)) hwf
  obtain ⟨c, hc, hwfc⟩ := foldl_putValue_payload values
    { m with body := m.body.put (uint32Bytes values.length ++ List.replicate 4 0 ++
      (values.map Value.tag ++ List.replicate
        (alignWord (values.map Value.tag).length - (values.map Value.tag).length) 0)) } h.2
  have hfin : (m.putNamedValues32 values).payload =
      ({ m with body := m.body.put (uint32Bytes values.length ++ List.replicate 4 0 ++
        (values.map Value.tag ++ List.replicate
          (alignWord (values.map Value.tag).length - (values.map Value.tag).length) 0)) } :
        Message).payload ++ c := hc
  have hfinw : (m.putNamedValues32 values).body.offset ≤
      (m.putNamedValues32 values).body.bytes.length := hwfc
  refine ⟨List.replicate 4 0 ++
      (values.map Value.tag ++ List.replicate
        (alignWord (values.map Value.tag).length - (values.map Value.tag).length) 0) ++ c,
    ?_, hfinw⟩
  rw [hfin, h.1]
  simp [List.append_assoc]

/-- The 8-bit named-values encoding opens its parameter block with the
single count byte. -/
theorem putNamedValues_payload (m : Message) (values : List Value)
    (hwf : m.body.offset ≤ m.body.bytes.length) :
    ∃ tail, (m.putNamedValues values).payload =
        m.payload ++ (uint8Bytes values.length ++ tail) ∧
      (m.putNamedValues values).body.offset ≤
        (m.putNamedValues values).body.bytes.length := by
  have h := Message_put_payload m
    (uint8Bytes values.length ++ values.map Value.tag ++ List.replicate
      (alignWord (uint8Bytes values.length ++ values.map Value.tag).length -
        (uint8Bytes values.length ++ values.map Value.tag).length) 0) hwf
  obtain ⟨c, hc, hwfc⟩ := foldl_putValue_payload values
    { m with body := m.body.put (uint8Bytes values.length ++ values.map Value.tag ++
      List.replicate (alignWord (uint8Bytes values.length ++ values.map Value.tag).length -
        (uint8Bytes values.length ++ values.map Value.tag).length) 0) } h.2
  have hfin : (m.putNamedValues values).payload =
      ({ m with body := m.body.put (uint8Bytes values.length ++ values.map Value.tag ++
        List.replicate (alignWord (uint8Bytes values.length ++ values.map Value.tag).length -
          (uint8Bytes values.length ++ values.map Value.tag).length) 0) } :
        Message).payload ++ c := hc
  have hfinw : (m.putNamedValues values).body.offset ≤
      (m.putNamedValues values).body.bytes.length := hwfc
  refine ⟨values.map Value.tag ++ List.replicate
      (alignWord (uint8Bytes values.length ++ values.map Value.tag).length -
        (uint8Bytes values.length ++ values.map Value.tag).length) 0 ++ c, ?_, hfinw⟩
  rw [hfin, h.1]
  simp [List.append_assoc]

/-- putHeader pads the payload and records the type and schema bytes in
the header fields. -/
theorem putHeader_payload (m : Message) (t sc : Nat)
    (hwf : m.body.offset ≤ m.body.bytes.length) :
    ∃ pad, (m.putHeader t sc).payload = m.payload ++ pad ∧
      (m.putHeader t sc).schema = sc ∧ (m.putHeader t sc).mtype = t := by
  have h := Message_put_payload m
    (List.replicate (alignWord m.body.offset - m.body.offset) 0) hwf
  have hp : (m.putHeader t sc).payload =
      m.payload ++ List.replicate (alignWord m.body.offset - m.body.offset) 0 := h.1
  exact ⟨List.replicate (alignWord m.body.offset - m.body.offset) 0, hp, rfl, rfl⟩

/-- The payload layout of the V1 (32-bit parameter count) SQL request
encoding: database id, padded SQL text, then the 32-bit count opening
the parameter block; the header carries schema byte 1 and the request
type. -/
theorem encodeSQLV1_layout (request : Message) (db : Nat) (sql : String)
    (values : List Value) (mtype : Nat) :
    ∃ tail,
      (((((request.reset).putUint64 db).putString sql).putNamedValues32 values).putHeader
          mtype 1).payload =
        uint64Bytes db ++ (stringChunk sql ++ (uint32Bytes values.length ++ tail)) ∧
      (((((request.reset).putUint64 db).putString sql).putNamedValues32 values).putHeader
          mtype 1).schema = 1 ∧
      (((((request.reset).putUint64 db).putString sql).putNamedValues32 values).putHeader
          mtype 1).mtype = mtype := by
  have h0 : (request.reset).body.offset ≤ (request.reset).body.bytes.length := by
    simp [Message.reset]
  have h0p : (request.reset).payload = [] := by
    simp [Message.payload, Message.reset]
  obtain ⟨h1, hwf1⟩ := putUint64_payload request.reset db h0
  obtain ⟨h2, hwf2⟩ := putString_payload ((request.reset).putUint64 db) sql hwf1
  obtain ⟨t3, h3, hwf3⟩ :=
    putNamedValues32_payload (((request.reset).putUint64 db).putString sql) values hwf2
  obtain ⟨t4, h4, hsc, hmt⟩ :=
    putHeader_payload ((((request.reset).putUint64 db).putString sql).putNamedValues32 values)
      mtype 1 hwf3
  refine ⟨t3 ++ t4, ?_, hsc, hmt⟩
  rw [h4, h3, h2, h1, h0p]
  simp [List.append_assoc]

/-- The payload layout of the V0 (8-bit parameter count) SQL request
encoding: database id, padded SQL text, then the count byte opening the
parameter block; the header carries schema byte 0 and the request
type. -/
theorem encodeSQLV0_layout (request : Message) (db : Nat) (sql : String)
    (values : List Value) (mtype : Nat) :
    ∃ tail,
      (((((request.reset).putUint64 db).putString sql).putNamedValues values).putHeader
          mtype 0).payload =
        uint64Bytes db ++ (stringChunk sql ++ (uint8Bytes values.length ++ tail)) ∧
      (((((request.reset).putUint64 db).putString sql).putNamedValues values).putHeader
          mtype 0).schema = 0 ∧
      (((((request.reset).putUint64 db).putString sql).putNamedValues values).putHeader
          mtype 0).mtype = mtype := by
  have h0 : (request.reset).body.offset ≤ (request.reset).body.bytes.length := by
    simp [Message.reset]
  have h0p : (request.reset).payload = [] := by
    simp [Message.payload, Message.reset]
  obtain ⟨h1, hwf1⟩ := putUint64_payload request.reset db h0
  obtain ⟨h2, hwf2⟩ := putString_payload ((request.reset).putUint64 db) sql hwf1
  obtain ⟨t3, h3, hwf3⟩ :=
    putNamedValues_payload (((request.reset).putUint64 db).putString sql) values hwf2
  obtain ⟨t4, h4, hsc, hmt⟩ :=
    putHeader_payload ((((request.reset).putUint64 db).putString sql).putNamedValues values)
      mtype 0 hwf3
  refine ⟨t3 ++ t4, ?_, hsc, hmt⟩
  rw [h4, h3, h2, h1, h0p]
  simp [List.append_assoc]

/-- C8: the driver gates the Exec/Query-style encodings on the
argument count: more than math.MaxUint32 arguments is rejected with a
too-many-parameters error before any request is sent (zero protocol
calls); more than 255 arguments selects the V1 encoding - schema byte 1
in the header, parameter block opening with the 32-bit count; any other
count selects the V0 encoding - schema byte 0, 8-bit count. -/
theorem C8_param_count_gating (request : Message) (id : Nat) (query : String)
    (args : List Value) :
    (args.length > maxUint32 →
      connExecContext request id query args = (.error "too many parameters", 0) ∧
      connQueryContext request id query args = (.error "too many parameters", 0)) ∧
    (args.length > maxUint8 → args.length ≤ maxUint32 →
      ∃ m tail, connExecContext request id query args = (.ok m, 1) ∧
        m.schema = 1 ∧ m.mtype = RequestExecSQL ∧
        m.payload = uint64Bytes id ++ (stringChunk query ++
          (uint32Bytes args.length ++ tail))) ∧
    (args.length ≤ maxUint8 →
      ∃ m tail, connExecContext request id query args = (.ok m, 1) ∧
        m.schema = 0 ∧ m.mtype = RequestExecSQL ∧
        m.payload = uint64Bytes id ++ (stringChunk query ++
          (uint8Bytes args.length ++ tail))) ∧
    (args.length > maxUint8 → args.length ≤ maxUint32 →
      ∃ m tail, connQueryContext request id query args = (.ok m, 1) ∧
        m.schema = 1 ∧ m.mtype = RequestQuerySQL ∧
        m.payload = uint64Bytes id ++ (stringChunk query ++
          (uint32Bytes args.length ++ tail))) ∧
    (args.length ≤ maxUint8 →
      ∃ m tail, connQueryContext request id query args = (.ok m, 1) ∧
        m.schema = 0 ∧ m.mtype = RequestQuerySQL ∧
        m.payload = uint64Bytes id ++ (stringChunk query ++
          (uint8Bytes args.length ++ tail))) := by
  have h255 : maxUint8 ≤ maxUint32 := by decide
  refine ⟨?_, ?_, ?_, ?_, ?_⟩
  · intro h
    constructor <;> simp only [connExecContext, connQueryContext, if_pos h]
  · intro h1 h2
    have hn1 : ¬ args.length > maxUint32 := not_lt.mpr h2
    obtain ⟨tail, hp, hsc, hmt⟩ := encodeSQLV1_layout request id query args RequestExecSQL
    exact ⟨EncodeExecSQLV1 request id query args, tail,
      by simp only [connExecContext, if_neg hn1, if_pos h1], hsc, hmt, hp⟩
  · intro h1
    have hn1 : ¬ args.length > maxUint32 := not_lt.mpr (le_trans h1 h255)
    have hn2 : ¬ args.length > maxUint8 := not_lt.mpr h1
    obtain ⟨tail, hp, hsc, hmt⟩ := encodeSQLV0_layout request id query args RequestExecSQL
    exact ⟨EncodeExecSQLV0 request id query args, tail,
      by simp only [connExecContext, if_neg hn1, if_neg hn2], hsc, hmt, hp⟩
  · intro h1 h2
    have hn1 : ¬ args.length > maxUint32 := not_lt.mpr h2
    obtain ⟨tail, hp, hsc, hmt⟩ := encodeSQLV1_layout request id query args RequestQuerySQL
    exact ⟨EncodeQuerySQLV1 request id query args, tail,
      by simp only [connQueryContext, if_neg hn1, if_pos h1], hsc, hmt, hp⟩
  · intro h1
    have hn1 : ¬ args.length > maxUint32 := not_lt.mpr (le_trans h1 h255)
    have hn2 : ¬ args.length > maxUint8 := not_lt.mpr h1
    obtain ⟨tail, hp, hsc, hmt⟩ := encodeSQLV0_layout request id query args RequestQuerySQL
    exact ⟨EncodeQuerySQLV0 request id query args, tail,
      by simp only [connQueryContext, if_neg hn1, if_neg hn2], hsc, hmt, hp⟩

set_option maxRecDepth 8000 in
/-- C8 witness: 300 bound parameters select the V1 encoding with schema
byte 1 and the 32-bit count. -/
theorem C8_param_count_gating_witness :
    (List.replicate 300 (Value.int 7)).length > maxUint8 ∧
    (List.replicate 300 (Value.int 7)).length ≤ maxUint32 ∧
    (∃ m tail, connExecContext (Message.init 8) 1 "INSERT INTO t VALUES"
        (List.replicate 300 (Value.int 7)) = (.ok m, 1) ∧
      m.schema = 1 ∧ m.mtype = RequestExecSQL ∧
      m.payload = uint64Bytes 1 ++ (stringChunk "INSERT INTO t VALUES" ++
        (uint32Bytes (List.replicate 300 (Value.int 7)).length ++ tail))) := by
  refine ⟨by simp [maxUint8], by simp [maxUint32], ?_⟩
  exact (C8_param_count_gating (Message.init 8) 1 "INSERT INTO t VALUES"
    (List.replicate 300 (Value.int 7))).2.1 (by simp [maxUint8]) (by simp [maxUint32])

/-- C10: YamlNodeStore.Set is atomic with respect to the in-memory
state: when marshalling or the file write fails, Set returns the error,
the store is unchanged, and the server list subsequent Gets observe is
the one from before the failed Set; and Get returns a reference to a
fresh copy of the list - distinct from the reference the store holds,
holding equal contents - so overwriting the returned slice never alters
what the store observes. -/
theorem C10_yaml_store_atomicity (s : YamlNodeStore) (heap : List (List NodeInfo))
    (env : YamlSetEnv) (ref : Nat) :
    ((env.marshalOk = false ∨ env.writeOk = false) →
      (s.set env ref).2.isSome ∧ (s.set env ref).1 = s ∧
      heapGet heap (s.set env ref).1.servers = heapGet heap s.servers) ∧
    (s.servers < heap.length →
      (s.get heap).1 ≠ s.servers ∧
      heapGet (s.get heap).2 (s.get heap).1 = heapGet heap s.servers ∧
      (∀ v, heapGet (heapSet (s.get heap).2 (s.get heap).1 v) s.servers =
        heapGet heap s.servers)) := by
  constructor
  · intro h
    rcases env with ⟨(_ | _), (_ | _)⟩ <;> first
      | (simp [YamlNodeStore.set]; simp_all)
      | simp [YamlNodeStore.set]
  · intro hlt
    refine ⟨?_, ?_, ?_⟩
    · show heap.length ≠ s.servers
      omega
    · show heapGet (heap ++ [heapGet heap s.servers]) heap.length = heapGet heap s.servers
      simp [heapGet, List.getD_eq_getElem?_getD, List.getElem?_concat_length]
    · intro v
      show heapGet ((heap ++ [heapGet heap s.servers]).set heap.length v) s.servers =
        heapGet heap s.servers
      have hne : heap.length ≠ s.servers := by omega
      simp only [heapGet, List.getD_eq_getElem?_getD]
      rw [List.getElem?_set_ne hne]
      rw [List.getElem?_append_left hlt]

/-- C10 witness: a store holding one server on a one-slice heap: a Set
whose marshal fails changes nothing; Get returns a fresh equal slice
and overwriting it leaves the store contents intact. -/
theorem C10_yaml_store_atomicity_witness :
    ({ path := "servers.yaml", servers := 0 } : YamlNodeStore).servers <
      [[({ ID := 1, Address := "a", Role := .Voter } : NodeInfo)]].length ∧
    (({ marshalOk := false, writeOk := true } : YamlSetEnv).marshalOk = false ∨
      ({ marshalOk := false, writeOk := true } : YamlSetEnv).writeOk = false) ∧
    (YamlNodeStore.set { path := "servers.yaml", servers := 0 }
        { marshalOk := false, writeOk := true } 5).1 =
      { path := "servers.yaml", servers := 0 } ∧
    (YamlNodeStore.get { path := "servers.yaml", servers := 0 }
        [[({ ID := 1, Address := "a", Role := .Voter } : NodeInfo)]]).1 ≠ 0 ∧
    (∀ v, heapGet (heapSet (YamlNodeStore.get { path := "servers.yaml", servers := 0 }
        [[({ ID := 1, Address := "a", Role := .Voter } : NodeInfo)]]).2
        (YamlNodeStore.get { path := "servers.yaml", servers := 0 }
          [[({ ID := 1, Address := "a", Role := .Voter } : NodeInfo)]]).1 v) 0 =
      heapGet [[({ ID := 1, Address := "a", Role := .Voter } : NodeInfo)]] 0) := by
  have h := C10_yaml_store_atomicity { path := "servers.yaml", servers := 0 }
    [[({ ID := 1, Address := "a", Role := .Voter } : NodeInfo)]]
    { marshalOk := false, writeOk := true } 5
  refine ⟨by decide, Or.inl rfl, (h.1 (Or.inl rfl)).2.1, (h.2 (by decide)).1, ?_⟩
  exact (h.2 (by decide)).2.2

end Cowsql
